import Mathlib

/-!
Verification development for the claude-proxy backend.

The TypeScript sources under `backend/src/server.ts` and
`backend/src/utils/index.ts` are shallowly embedded below:

* JS strings are modelled as Lean `String`; `toLowerCase`, `trim`,
  `includes`, `startsWith` and `split('\n')` are modelled by the
  character-list helpers in this file (ASCII-faithful).
* Parsed JSON values are modelled by the inductive `Json`; machine
  numbers are modelled as `Int` (the classifier and schema cleaner
  only ever compare them for truthiness / never overflow).
* Fallible upstream reads and throwing decoder callbacks are modelled
  with `Except` / `Option`.
-/

namespace ClaudeProxy

/-! ## String helpers (JS string methods) -/

/-- Whitespace class used by JS `trim` / `\s` on the inputs that occur here. -/
def isWsChar (c : Char) : Bool :=
  c = ' ' || c = '\t' || c = '\n' || c = '\r' || c = '\x0b' || c = '\x0c'

/-- JS `String.prototype.trim`. -/
def trimStr (s : String) : String :=
  String.mk (((s.data.dropWhile isWsChar).reverse.dropWhile isWsChar).reverse)

/-- JS `String.prototype.toLowerCase` (ASCII range, which covers every keyword used). -/
def lowerStr (s : String) : String :=
  String.mk (s.data.map Char.toLower)

/-- Substring test on character lists: does `hay` contain `needle` as a contiguous run? -/
def containsList (hay needle : List Char) : Bool :=
  match hay with
  | [] => needle.isEmpty
  | _ :: t => needle.isPrefixOf hay || containsList t needle

/-- JS `String.prototype.includes`. -/
def containsS (hay needle : String) : Bool :=
  containsList hay.data needle.data

/-- JS `String.prototype.startsWith`. -/
def startsWithS (s p : String) : Bool :=
  p.data.isPrefixOf s.data

/-- Drop the first `n` characters (JS `slice(n)` for our uses). -/
def dropChars (s : String) (n : Nat) : String :=
  String.mk (s.data.drop n)

/-- JS `String.prototype.split('\n')` on character lists: always returns at
least one segment; a trailing `'\n'` yields a trailing empty segment. -/
def splitSegs : List Char → List (List Char)
  | [] => [[]]
  | c :: rest =>
    if c = '\n' then [] :: splitSegs rest
    else
      match splitSegs rest with
      | s :: ss => (c :: s) :: ss
      | [] => [[c]]

/-- JS `split('\n')` lifted to `String`. -/
def splitLines (s : String) : List String :=
  (splitSegs s.data).map String.mk

/-- Concatenation of a list of strings (the full decoded upstream text). -/
def concatStr (chunks : List String) : String :=
  chunks.foldr (fun a b => a ++ b) ""

/-! ## JSON value model -/

/-- Parsed JSON values (`JSON.parse` results). -/
inductive Json where
  | jnull : Json
  | jbool : Bool → Json
  | jnum : Int → Json
  | jstr : String → Json
  | jarr : List Json → Json
  | jobj : List (String × Json) → Json

namespace Json

/-- JS truthiness of a JSON value. -/
def jsTruthy : Json → Bool
  | jnull => false
  | jbool b => b
  | jnum n => n != 0
  | jstr s => s ≠ ""
  | jarr _ => true
  | jobj _ => true

/-- First binding of a key in an object's entry list. -/
def lookupKey : List (String × Json) → String → Option Json
  | [], _ => none
  | (k, v) :: rest, key => if k = key then some v else lookupKey rest key

/-- JS property access `j[k]` for non-null values (`undefined` becomes `none`).
Access on `null` throws in JS and is handled separately by callers. -/
def getProp : Json → String → Option Json
  | jobj kvs, k => lookupKey kvs k
  | _, _ => none

/-- JS `toString()` as used on `errorBody.error.type` (objects print as
`[object Object]`, arrays join their elements with commas). -/
def jsToString : Json → String
  | jnull => "null"
  | jbool b => if b then "true" else "false"
  | jnum n => toString n
  | jstr s => s
  | jarr xs => String.intercalate "," (xs.attach.map (fun v => jsToString v.1))
  | jobj _ => "[object Object]"
decreasing_by
  have := List.sizeOf_lt_of_mem v.2
  simp_all
  omega

/-- JS `typeof x === 'object'` (true for objects, arrays and `null`). -/
def typeofIsObject : Json → Bool
  | jnull => true
  | jarr _ => true
  | jobj _ => true
  | _ => false

/-- JS `Array.isArray`. -/
def isJsArray : Json → Bool
  | jarr _ => true
  | _ => false

end Json

/-! ## utils/index.ts : normalizeClaudeRole -/

/-- `normalizeClaudeRole` from `backend/src/utils/index.ts` (the input has
already been stringified by `String(role ?? '')`). -/
def normalizeClaudeRole (role : String) : String :=
  let r := lowerStr role
  if r = "assistant" || r = "model" then "assistant"
  else if r = "user" || r = "human" then "user"
  else if r = "system" then "system"
  else if r = "tool" then "tool"
  else "user"

/-! ## utils/index.ts : detectUpstreamHtmlError -/

/-- Result record of `detectUpstreamHtmlError`; the optional JS fields are
`none` when absent (absent and `undefined` are indistinguishable to callers). -/
structure HtmlErrorDetectionResult where
  isHtml : Bool
  isCloudflare : Bool := false
  reason : Option String := none
  hint : Option String := none
deriving DecidableEq

/-- `detectUpstreamHtmlError` from `backend/src/utils/index.ts`. -/
def detectUpstreamHtmlError (html : String) : HtmlErrorDetectionResult :=
  if html = "" then { isHtml := false }
  else
    let trimmed := trimStr html
    let lower := lowerStr trimmed
    let isHtml := startsWithS lower "<!doctype html" || startsWithS lower "<html"
    if !isHtml then { isHtml := false }
    else if containsS lower "cloudflare" &&
        (containsS lower "just a moment" || containsS lower "__cf_chl_opt") then
      { isHtml := true
        isCloudflare := true
        reason := some "检测到 Cloudflare 浏览器挑战页面"
        hint := some "目标渠道启用了 Cloudflare 防护，需要先在浏览器中完成登录/人机验证或配置 cf_clearance Cookie 后再访问" }
    else { isHtml := true }

/-! ## utils/index.ts : cleanJsonSchema

`cleanJsonSchema` copies the input object (`{ ...schema }`) and walks its
keys with an `else if` chain.  Two JS facts are baked into the embedding:

* spreading an array gives an object whose keys are the decimal index
  strings `"0"`, `"1"`, …, iterated in ascending order (so `Json.jarr`
  maps to a `Json.jobj` with index keys);
* those index keys never equal any of the special keys of the chain, so
  array elements only ever take the final `typeof === 'object' &&
  !Array.isArray` branch (`cleanElems` below); the lemma
  `natRepr_not_special` proves the digit-string fact used here.

`cleaned.type === 'string'` reads the possibly-mutated copy, but the
`type` key is never deleted and a replaced value is never the literal
string `"string"` unless the original was, so looking the condition up in
the ORIGINAL entry list (`typeIsString`) is exact. -/

/-- The unconditionally removed keys: `$schema`, `title`, `examples`,
`additionalProperties`. -/
def dropKeys : List String := ["$schema", "title", "examples", "additionalProperties"]

/-- Does the object's `type` field hold the literal string `"string"`? -/
def typeIsString (kvs : List (String × Json)) : Bool :=
  match Json.lookupKey kvs "type" with
  | some (Json.jstr s) => s = "string"
  | _ => false

/-- One step of the `for (const key in cleaned)` chain for entry `(k, v)`;
`cv` is `cleanJsonSchema v` (passed in by the recursive caller).  Returns
`[]` when the key is deleted, otherwise the single surviving binding. -/
def procEntry (ts : Bool) (k : String) (v cv : Json) : List (String × Json) :=
  if dropKeys.contains k then []
  else if k = "enum" && v.isJsArray then [(k, v)]
  else if k = "format" && ts then []
  else if (k = "properties" || k = "items") && v.typeofIsObject then [(k, cv)]
  else if v.typeofIsObject && !v.isJsArray then [(k, cv)]
  else [(k, v)]

/-- Attach decimal index keys to the (processed) elements of a spread array. -/
def idxEntries : Nat → List Json → List (String × Json)
  | _, [] => []
  | i, v :: rest => (Nat.repr i, v) :: idxEntries (i + 1) rest

mutual

/-- `cleanJsonSchema` from `backend/src/utils/index.ts`.  Falsy / non-object
inputs are returned unchanged; arrays are spread into index-keyed objects. -/
def cleanJsonSchema : Json → Json
  | Json.jobj kvs => Json.jobj (cleanEntries (typeIsString kvs) kvs)
  | Json.jarr xs => Json.jobj (idxEntries 0 (cleanElems xs))
  | j => j

/-- The key loop over an object's entries. -/
def cleanEntries (ts : Bool) : List (String × Json) → List (String × Json)
  | [] => []
  | (k, v) :: rest => procEntry ts k v (cleanJsonSchema v) ++ cleanEntries ts rest

/-- The key loop restricted to a spread array's elements (index keys hit
only the final nested-object branch). -/
def cleanElems : List Json → List Json
  | [] => []
  | v :: rest =>
    (if v.typeofIsObject && !v.isJsArray then cleanJsonSchema v else v) :: cleanElems rest

end

/-! ## utils/index.ts : processProviderStream (the stream pump)

The pump reads upstream bytes, frames them into SSE `data:` lines and
drives the per-line decoder callback.  Modelling choices:

* the upstream body is a list of already-decoded text chunks (the
  `TextDecoder` with `stream: true` is transparent at this level)
  followed by either a clean EOF or a read error;
* a throwing decoder callback is an `Except.error`;
* output frames are tagged by their producer (`sendMessageStart`,
  decoder events forwarded verbatim, `sendMessageStop`) instead of by
  their serialized SSE text;
* `controller.error(e)` is the `aborted := some e` field of the result;
  `controller.close()` is `aborted := none`;
* the result also records the trace of decoder invocations
  (`calls`), which the source performs but does not store. -/

/-- Return value of the per-line decoder callback `processLine`. -/
structure DecodeResult where
  events : List String
  textBlockIndex : Nat
  toolUseBlockIndex : Nat
deriving DecidableEq

/-- A per-line decoder callback that may throw. -/
def LineDecoder : Type := String → Nat → Nat → Except String (Option DecodeResult)

/-- A per-line decoder callback that never throws. -/
def TotalLineDecoder : Type := String → Nat → Nat → Option DecodeResult

/-- Embed a non-throwing decoder. -/
def totalize (d : TotalLineDecoder) : LineDecoder :=
  fun s a b => Except.ok (d s a b)

/-- One output frame of the pump, tagged by its producer. -/
inductive Frame where
  | messageStart (id : String)
  | payload (event : String)
  | messageStop
deriving DecidableEq

/-- The SSE `data:` extraction applied to an already-trimmed line:
`^data:\s*(.*)$` followed by `.trim()` of the capture (on a trimmed line
this equals trimming the text after the 5-character marker). -/
def extractData (trimmed : String) : String :=
  if startsWithS trimmed "data:" then trimStr (dropChars trimmed 5) else trimmed

/-- The `for (const line of lines)` body: skip blanks, extract the
candidate, skip `[DONE]` and empties, otherwise call the decoder and
thread the block indices.  Returns the forwarded frames, the decoder
invocations made, and either the final indices or the thrown error. -/
def runLines (decode : LineDecoder) (ti tui : Nat) :
    List String → List Frame × List (String × Nat × Nat) × Except String (Nat × Nat)
  | [] => ([], [], Except.ok (ti, tui))
  | line :: rest =>
    let trimmedLine := trimStr line
    if trimmedLine = "" then runLines decode ti tui rest
    else
      let jsonStr := extractData trimmedLine
      if jsonStr = "[DONE]" then runLines decode ti tui rest
      else if jsonStr = "" then runLines decode ti tui rest
      else
        match decode jsonStr ti tui with
        | Except.error e => ([], [(jsonStr, ti, tui)], Except.error e)
        | Except.ok none =>
          let (fs, cs, res) := runLines decode ti tui rest
          (fs, (jsonStr, ti, tui) :: cs, res)
        | Except.ok (some r) =>
          let (fs, cs, res) := runLines decode r.textBlockIndex r.toolUseBlockIndex rest
          (r.events.map Frame.payload ++ fs, (jsonStr, ti, tui) :: cs, res)

/-- The `while (true)` read loop: prepend the carry-over buffer to each
chunk, split on `'\n'`, keep the last segment as the new buffer and feed
the complete lines through `runLines`. -/
def runChunks (decode : LineDecoder) :
    List String → String → Nat → Nat →
    List Frame × List (String × Nat × Nat) × Except String (String × Nat × Nat)
  | [], buffer, ti, tui => ([], [], Except.ok (buffer, ti, tui))
  | chunk :: rest, buffer, ti, tui =>
    let segs := splitLines (buffer ++ chunk)
    let newBuffer := (segs.getLast?).getD ""
    match runLines decode ti tui segs.dropLast with
    | (fs, cs, Except.error e) => (fs, cs, Except.error e)
    | (fs, cs, Except.ok (ti', tui')) =>
      let (fs2, cs2, res) := runChunks decode rest newBuffer ti' tui'
      (fs ++ fs2, cs ++ cs2, res)

/-- The EOF drain of the remaining buffer (`if (buffer.trim()) { … }`): at
most one further decoder call, made only when the candidate is non-empty
and not `[DONE]`. -/
def drainBuffer (decode : LineDecoder) (buffer : String) (ti tui : Nat) :
    List Frame × List (String × Nat × Nat) × Option String :=
  if trimStr buffer = "" then ([], [], none)
  else
    let jsonStr := extractData (trimStr buffer)
    if jsonStr = "" then ([], [], none)
    else if jsonStr = "[DONE]" then ([], [], none)
    else
      match decode jsonStr ti tui with
      | Except.error e => ([], [(jsonStr, ti, tui)], some e)
      | Except.ok none => ([], [(jsonStr, ti, tui)], none)
      | Except.ok (some r) => (r.events.map Frame.payload, [(jsonStr, ti, tui)], none)

/-- The complete output stream produced by the pump. -/
structure PumpResult where
  frames : List Frame
  calls : List (String × Nat × Nat)
  aborted : Option String
deriving DecidableEq

/-- The `start(controller)` body for a present upstream body: emit
`message_start`, run the read loop, drain the buffer, then either emit
`message_stop` and close, or signal the error without `message_stop`.
`readError` is a read rejection occurring after the listed chunks. -/
def processStreamBody (decode : LineDecoder) (msgId : String)
    (chunks : List String) (readError : Option String) : PumpResult :=
  let start := Frame.messageStart msgId
  match runChunks decode chunks "" 0 0 with
  | (fs, cs, Except.error e) => ⟨start :: fs, cs, some e⟩
  | (fs, cs, Except.ok (buffer, ti, tui)) =>
    match readError with
    | some e => ⟨start :: fs, cs, some e⟩
    | none =>
      match drainBuffer decode buffer ti tui with
      | (fs2, cs2, some e) => ⟨start :: (fs ++ fs2), cs ++ cs2, some e⟩
      | (fs2, cs2, none) => ⟨start :: (fs ++ fs2 ++ [Frame.messageStop]), cs ++ cs2, none⟩

/-- The `Response` returned by `processProviderStream`. -/
structure ModelResponse where
  status : Nat
  headers : List (String × String)
  body : PumpResult
deriving DecidableEq

/-- `processProviderStream` from `backend/src/utils/index.ts`: a `none`
upstream body (`providerResponse.body` null) closes the stream at once
with no frames; the response always carries the upstream status and the
three fixed headers. -/
def processProviderStream (decode : LineDecoder) (msgId : String)
    (status : Nat) (body : Option (List String × Option String)) : ModelResponse :=
  { status := status
    headers := [("Content-Type", "text/event-stream"),
                ("Cache-Control", "no-cache"),
                ("Connection", "keep-alive")]
    body := match body with
      | none => ⟨[], [], none⟩
      | some (chunks, readErr) => processStreamBody decode msgId chunks readErr }

/-! ## server.ts : failure classifier (lines 586-694 of `app.post('/v1/messages')`)

An upstream response body is a pair of the raw text and the result of
`JSON.parse` on it (`none` when parsing throws).  The classifier first
tries `providerResponse.clone().json()`; on success it runs the keyword
chain, and `errorBody.error` on a parsed `null` throws a `TypeError`
that lands in the same `catch (parseError)` branch as a parse failure. -/

/-- An upstream response body: the raw text together with its parse. -/
structure UpBody where
  raw : String
  parsed : Option Json

/-- What one `lastFailoverError` record holds: `{status, body}` after a
successful parse, `{status, text}` for non-HTML unparseable bodies. -/
inductive FailRecord where
  | jsonBody (status : Nat) (body : Json)
  | rawText (status : Nat) (text : String)

/-- The synthesized error body for an HTML upstream page (lines 659-675). -/
def synthHtmlErrorBody (info : HtmlErrorDetectionResult) (upName upBaseUrl : String) : Json :=
  Json.jobj
    ([("error", Json.jstr (if info.isCloudflare then
          "上游触发了 Cloudflare 防护，代理无法直接通过"
        else
          "上游返回了HTML错误页面，无法解析为JSON响应")),
      ("code", Json.jstr (if info.isCloudflare then
          "UPSTREAM_CLOUDFLARE_CHALLENGE" else "UPSTREAM_HTML_ERROR")),
      ("upstream", Json.jobj [("name", Json.jstr upName), ("baseUrl", Json.jstr upBaseUrl)])]
     ++ (match info.reason with | some r => [("reason", Json.jstr r)] | none => [])
     ++ (match info.hint with | some h => [("hint", Json.jstr h)] | none => []))

/-- Outcome of classifying one non-2xx upstream response. -/
structure FailoverDecision where
  shouldFailover : Bool
  isQuotaRelated : Bool
  errorMessage : String
  record : Option FailRecord

/-- The message-keyword list that triggers failover (lines 604-612). -/
def failoverMsgKeywords : List String :=
  ["积分不足", "insufficient", "invalid", "unauthorized", "quota", "rate limit",
   "credit", "balance"]

/-- The `error.type` keyword list that triggers failover (lines 613-616). -/
def failoverTypeKeywords : List String := ["permission", "insufficient", "over_quota", "billing"]

/-- The message-keyword subset flagged quota-related (lines 622-626). -/
def quotaMsgKeywords : List String := ["积分不足", "insufficient", "credit", "balance", "quota"]

/-- The `error.type` subset flagged quota-related (lines 627-628). -/
def quotaTypeKeywords : List String := ["over_quota", "billing"]

/-- Does `hay` contain any of the keywords? -/
def containsAny (hay : String) (keywords : List String) : Bool :=
  keywords.any (fun k => containsS hay k)

/-- The try-branch of the classifier (lines 597-649) for a successfully
parsed, non-null body `errorBody`. -/
def classifyParsedBody (status : Nat) (errorBody : Json) : FailoverDecision :=
  let defaultMsg := "上游错误: " ++ Nat.repr status
  let base : Bool × Bool × String :=
    match errorBody.getProp "error" with
    | some errVal =>
      if errVal.jsTruthy then
        -- errorMsg = errorBody.error.message || errorBody.error || ''
        let errorMsgJ :=
          match errVal.getProp "message" with
          | some m => if m.jsTruthy then m else errVal
          | none => errVal
        -- errorType = (errorBody.error.type || '').toString().toLowerCase()
        let errorType :=
          lowerStr (match errVal.getProp "type" with
            | some t => if t.jsTruthy then t.jsToString else ""
            | none => "")
        match errorMsgJ with
        | Json.jstr s =>
          let lowerErrorMsg := lowerStr s
          if containsAny lowerErrorMsg failoverMsgKeywords ||
              containsAny errorType failoverTypeKeywords then
            (true,
             containsAny lowerErrorMsg quotaMsgKeywords ||
               containsAny errorType quotaTypeKeywords,
             "API密钥错误: " ++ s)
          else (false, false, defaultMsg)
        | _ => (false, false, defaultMsg)
      else (false, false, defaultMsg)
    | none => (false, false, defaultMsg)
  let shouldFailover := base.1 || (status = 401 || status = 403)
  { shouldFailover := shouldFailover
    isQuotaRelated := base.2.1
    errorMessage := base.2.2
    record := if shouldFailover then some (FailRecord.jsonBody status errorBody) else none }

/-- The catch-branch of the classifier (lines 650-683): body did not parse
as JSON (or was the JSON literal `null`, whose `.error` access throws). -/
def classifyUnparsedBody (upName upBaseUrl : String) (status : Nat) (raw : String) :
    FailoverDecision :=
  let defaultMsg := "上游错误: " ++ Nat.repr status
  if status = 401 || status = 403 || 500 ≤ status then
    let htmlInfo := detectUpstreamHtmlError raw
    { shouldFailover := true
      isQuotaRelated := false
      errorMessage := defaultMsg
      record := some (if htmlInfo.isHtml then
          FailRecord.jsonBody status (synthHtmlErrorBody htmlInfo upName upBaseUrl)
        else
          FailRecord.rawText status raw) }
  else
    { shouldFailover := false, isQuotaRelated := false
      errorMessage := defaultMsg, record := none }

/-- Classification of one non-2xx upstream response. -/
def classifyFailure (upName upBaseUrl : String) (status : Nat) (body : UpBody) :
    FailoverDecision :=
  match body.parsed with
  | some Json.jnull => classifyUnparsedBody upName upBaseUrl status body.raw
  | some j => classifyParsedBody status j
  | none => classifyUnparsedBody upName upBaseUrl status body.raw

/-- Three-way outcome of the classifier, as the router consumes it
(`ok` is checked first at line 583). -/
inductive ClassifyOutcome where
  | success
  | failover
  | passThrough
deriving DecidableEq

/-- `response.ok`: status in [200, 299]. -/
def statusOk (status : Nat) : Bool := 200 ≤ status && status ≤ 299

/-- The decision taken on one upstream response: break with success,
throw for failover, or break and forward (fatal pass-through). -/
def classifyOutcome (upName upBaseUrl : String) (status : Nat) (body : UpBody) :
    ClassifyOutcome :=
  if statusOk status then ClassifyOutcome.success
  else if (classifyFailure upName upBaseUrl status body).shouldFailover then
    ClassifyOutcome.failover
  else ClassifyOutcome.passThrough

/-! ## server.ts : the failover retry loop (lines 473-745)

One request is modelled by an environment `env : String → AttemptOutcome`
giving, for each API key, what attempting it produces (each key is used
at most once per request, so a function is adequate).  The loop state
mirrors the `let`/`const` bindings of the handler.  The ghost `trace`
records the attempts actually executed, in order, for specification
purposes only. -/

/-- What one attempt with a given key produced: an upstream HTTP response,
or a throw before `providerResponse` was (re)assigned (request conversion
or `fetch` failure). -/
inductive AttemptOutcome where
  | gotResponse (status : Nat) (body : UpBody)
  | threw (msg : String)

/-- The handler's mutable bindings (lines 475-481). -/
structure LoopState where
  failedKeys : List String
  providerResponse : Option (Nat × UpBody)
  lastError : Option String
  lastFailoverError : Option FailRecord
  deprioritizeCandidates : List String

/-- Initial state at line 483. -/
def initLoopState : LoopState :=
  { failedKeys := [], providerResponse := none, lastError := none
    lastFailoverError := none, deprioritizeCandidates := [] }

/-- JS `Set.add`: insertion order, no duplicates. -/
def addCandidate (l : List String) (k : String) : List String :=
  if l.contains k then l else l ++ [k]

/-- Modelled from the spec: `configManager.getNextApiKey(upstream, failedKeys)`
(the config manager is not under `src/`).  Spec §4.5: "returns the first
key of `channel.apiKeys` that is not in `excludeSet` and not in the global
failed set"; within one request the global set receives exactly the keys
added to `failedKeys`, so the exclusion set alone determines the choice.
`none` models the "no available key" throw. -/
def nextApiKey (keys failed : List String) : Option String :=
  keys.find? (fun k => !failed.contains k)

/-- The `for (let attempt = 0; attempt < maxRetries; attempt++)` loop.
`fuel` counts the remaining iterations (`maxRetries - attempt`); the
`attempt === maxRetries - 1` early-break check of the catch block is kept
verbatim.  An empty-string key is falsy in JS, so the catch block's
`if (apiKey)` breaks instead of retrying for it. -/
def go (env : String → AttemptOutcome) (upName upBaseUrl : String) (keys : List String) :
    Nat → Nat → LoopState → List (String × AttemptOutcome) →
    LoopState × List (String × AttemptOutcome)
  | 0, _, st, trace => (st, trace)
  | fuel + 1, attempt, st, trace =>
    match nextApiKey keys st.failedKeys with
    | none =>
      -- getNextApiKey threw; apiKey is undefined, so the catch block breaks
      ({ st with lastError := some "没有可用的API密钥" }, trace)
    | some k =>
      match env k with
      | AttemptOutcome.threw msg =>
        let st1 := { st with lastError := some msg }
        let trace1 := trace ++ [(k, AttemptOutcome.threw msg)]
        if attempt = keys.length - 1 then (st1, trace1)
        else if k ≠ "" then
          go env upName upBaseUrl keys fuel (attempt + 1)
            { st1 with failedKeys := st1.failedKeys ++ [k] } trace1
        else (st1, trace1)
      | AttemptOutcome.gotResponse status body =>
        let st1 := { st with providerResponse := some (status, body) }
        let trace1 := trace ++ [(k, AttemptOutcome.gotResponse status body)]
        if statusOk status then (st1, trace1)     -- success: break
        else
          let d := classifyFailure upName upBaseUrl status body
          let st2 := { st1 with
            lastFailoverError :=
              match d.record with
              | some r => some r
              | none => st1.lastFailoverError }
          if d.shouldFailover then
            -- record candidate, throw errorMessage, land in the catch block
            let st3 := { st2 with
              deprioritizeCandidates :=
                if d.isQuotaRelated && k ≠ "" then
                  addCandidate st2.deprioritizeCandidates k
                else st2.deprioritizeCandidates,
              lastError := some d.errorMessage }
            if attempt = keys.length - 1 then (st3, trace1)
            else if k ≠ "" then
              go env upName upBaseUrl keys fuel (attempt + 1)
                { st3 with failedKeys := st3.failedKeys ++ [k] } trace1
            else (st3, trace1)
          else (st2, trace1)                      -- fatal pass-through: break

/-- What the handler sends after the loop: either the captured upstream
response handed to `convertToClaudeResponse` and piped to the client
(`forward`), or a direct `res.status(s).json(body)` (`respondJson`). -/
inductive RouterAction where
  | forward (status : Nat) (body : UpBody)
  | respondJson (status : Nat) (body : Json)

/-- JS `a?.x || b` chains on strings (empty string is falsy). -/
def jsStringOr (a : Option String) (b : String) : String :=
  match a with
  | some s => if s ≠ "" then s else b
  | none => b

/-- Lines 719-745: the all-retries-failed response and the
deprioritization pass.  Returns the action and the list of keys passed to
`configManager.deprioritizeApiKeyForCurrentUpstream`. -/
def finishRouter (st : LoopState) : RouterAction × List String :=
  match st.providerResponse with
  | none =>
    match st.lastFailoverError with
    | some (FailRecord.jsonBody s b) =>
      (RouterAction.respondJson (if s = 0 then 500 else s) b, [])
    | some (FailRecord.rawText s t) =>
      (RouterAction.respondJson (if s = 0 then 500 else s)
        (Json.jobj [("error",
          Json.jstr (jsStringOr st.lastError (if t ≠ "" then t else "Upstream error")))]), [])
    | none =>
      (RouterAction.respondJson 500
        (Json.jobj ([("error", Json.jstr "所有上游API密钥都不可用")]
          ++ match st.lastError with
             | some m => [("details", Json.jstr m)]
             | none => [])), [])
  | some (status, body) =>
    let depri :=
      if statusOk status && !st.deprioritizeCandidates.isEmpty then
        st.deprioritizeCandidates
      else []
    (RouterAction.forward status body, depri)

/-- Result of one routed request. -/
structure RouterResult where
  action : RouterAction
  deprioritized : List String
  finalState : LoopState
  trace : List (String × AttemptOutcome)

/-- One full pass of the failover loop for a channel with key list `keys`. -/
def runRouter (env : String → AttemptOutcome) (upName upBaseUrl : String)
    (keys : List String) : RouterResult :=
  let r := go env upName upBaseUrl keys keys.length 0 initLoopState []
  let f := finishRouter r.1
  { action := f.1, deprioritized := f.2, finalState := r.1, trace := r.2 }

/-! ## Specification-side definitions

The definitions below restate claim text (for refinement-style
comparisons) or package derived notions used by the theorems. -/

/-- The fixed role mapping exactly as the C8 claim words it, applied to
the lowercased input. -/
def claimRoleMap (r : String) : String :=
  if r = "assistant" then "assistant"
  else if r = "model" then "assistant"
  else if r = "user" then "user"
  else if r = "human" then "user"
  else if r = "system" then "system"
  else if r = "tool" then "tool"
  else "user"

/-- The truthy `error` field of a parsed body, if any. -/
def errorField (j : Json) : Option Json :=
  match j.getProp "error" with
  | some v => if v.jsTruthy then some v else none
  | none => none

/-- `errorBody.error.message || errorBody.error` for a truthy `error`. -/
def resolvedMessage (errVal : Json) : Json :=
  match errVal.getProp "message" with
  | some m => if m.jsTruthy then m else errVal
  | none => errVal

/-- `(errorBody.error.type || '').toString().toLowerCase()`. -/
def resolvedTypeString (errVal : Json) : String :=
  lowerStr (match errVal.getProp "type" with
    | some t => if t.jsTruthy then t.jsToString else ""
    | none => "")

/-- Amended C4 failover condition for a parsed 400 body: the truthy
`error` field's message-or-self must be a string, and either its
lowercasing contains a failover message keyword or the lowercased
`error.type` string contains a failover type keyword. -/
def claim400Failover (j : Json) : Bool :=
  match errorField j with
  | some errVal =>
    (match resolvedMessage errVal with
     | Json.jstr s =>
       containsAny (lowerStr s) failoverMsgKeywords ||
         containsAny (resolvedTypeString errVal) failoverTypeKeywords
     | _ => false)
  | none => false

/-- Amended C4 quota flag: the lowercased message contains one of
积分不足 / insufficient / credit / balance / quota, or the lowercased
type contains over_quota / billing. -/
def claim400Quota (j : Json) : Bool :=
  match errorField j with
  | some errVal =>
    (match resolvedMessage errVal with
     | Json.jstr s =>
       (containsAny (lowerStr s) failoverMsgKeywords ||
          containsAny (resolvedTypeString errVal) failoverTypeKeywords) &&
       (containsAny (lowerStr s) quotaMsgKeywords ||
          containsAny (resolvedTypeString errVal) quotaTypeKeywords)
     | _ => false)
  | none => false

/-- Is the router's final action a 2xx success forwarded to the client? -/
def isSuccessAction : RouterAction → Bool
  | RouterAction.forward status _ => statusOk status
  | RouterAction.respondJson _ _ => false

/-- The keys of the executed attempts that failed with a quota-related
failover classification (C5's deprioritization candidates), accumulated
in attempt order with set semantics. -/
def quotaKeysAcc (upName upBaseUrl : String) (acc : List String) :
    List (String × AttemptOutcome) → List String
  | [] => acc
  | (k, AttemptOutcome.gotResponse status body) :: rest =>
    quotaKeysAcc upName upBaseUrl
      (if !statusOk status &&
          (classifyFailure upName upBaseUrl status body).shouldFailover &&
          (classifyFailure upName upBaseUrl status body).isQuotaRelated && k ≠ "" then
        addCandidate acc k
      else acc) rest
  | (_, AttemptOutcome.threw _) :: rest => quotaKeysAcc upName upBaseUrl acc rest

mutual

/-- Recursive well-formedness of a cleaned schema (amended C6): every
object reachable through object-valued entries carries none of the four
dropped keys, and no `format` key when its `type` is the string
`"string"`.  Kept arrays are opaque to the cleaner and are not entered. -/
def cleanedOK : Json → Bool
  | Json.jobj kvs =>
    (!typeIsString kvs || (Json.lookupKey kvs "format").isNone) && entriesOK kvs
  | _ => true

/-- Entry-list part of `cleanedOK`. -/
def entriesOK : List (String × Json) → Bool
  | [] => true
  | (k, v) :: rest =>
    !dropKeys.contains k &&
    (match v with
     | Json.jobj _ => cleanedOK v
     | _ => true) &&
    entriesOK rest

end

/-- The candidate a line contributes under C9's framing words: trim the
line, and take the `^data:\s*(.*)$` capture if it matches, else the whole
trimmed line. -/
def specCandidate (line : String) : String :=
  extractData (trimStr line)

/-- C9's per-line loop over the complete lines of the WHOLE decoded text:
skip empty candidates and `[DONE]`, call the decoder on the rest with the
current block indices, and advance the indices to the decoder's returned
values.  Returns the invocation list and the final indices. -/
def claimLineCalls (d : TotalLineDecoder) :
    List String → Nat → Nat → List (String × Nat × Nat) × Nat × Nat
  | [], ti, tui => ([], ti, tui)
  | l :: rest, ti, tui =>
    let c := specCandidate l
    if c = "" || c = "[DONE]" then claimLineCalls d rest ti tui
    else
      match d c ti tui with
      | none =>
        let r := claimLineCalls d rest ti tui
        ((c, ti, tui) :: r.1, r.2)
      | some res =>
        let r := claimLineCalls d rest res.textBlockIndex res.toolUseBlockIndex
        ((c, ti, tui) :: r.1, r.2)

/-- Amended C9 framing specification: split the concatenated decoded text
on `'\n'`; the last segment is the carry-over buffer and the rest are the
complete lines; run the per-line loop, then drain the buffer with exactly
one final call when its candidate is non-empty and not `[DONE]`. -/
def claimFramingCalls (d : TotalLineDecoder) (chunks : List String) :
    List (String × Nat × Nat) :=
  let segs := splitLines (concatStr chunks)
  let r := claimLineCalls d segs.dropLast 0 0
  let buffer := (segs.getLast?).getD ""
  let c := specCandidate buffer
  r.1 ++ (if c ≠ "" && c ≠ "[DONE]" then [(c, r.2.1, r.2.2)] else [])

/-- Merge of two `splitSegs` results across a concatenation boundary: the
last segment of the left run continues into the first segment of the
right run. -/
def glueSegs : List (List Char) → List (List Char) → List (List Char)
  | [a], b :: bs => (a ++ b) :: bs
  | a :: as, bs => a :: glueSegs as bs
  | [], bs => bs

/-! ### Concrete inputs used by counterexamples and witnesses -/

/-- An echoing, never-throwing line decoder (events the candidate,
leaves the indices unchanged). -/
def dec0 : TotalLineDecoder := fun s a b => some ⟨[s], a, b⟩

/-- A Cloudflare challenge page as an upstream body. -/
def cfHtmlBody : String := "<html>cloudflare just a moment</html>"

/-- A decoder that always throws. -/
def decFail : LineDecoder := fun _ _ _ => Except.error "boom"

/-- An environment where every key gets a 502 HTML (unparseable) response. -/
def envAll502 : String → AttemptOutcome :=
  fun _ => AttemptOutcome.gotResponse 502 ⟨cfHtmlBody, none⟩

/-! ## Theorems -/

/-- Claim C8: role normalization is a total function on arbitrary input
strings realizing exactly the claimed case-insensitive mapping
(`assistant`/`model` ↦ assistant, `user`/`human` ↦ user, `system` ↦
system, `tool` ↦ tool, everything else ↦ user), and applying it twice
equals applying it once. -/
theorem claim_C8_role_normalization (s : String) :
    normalizeClaudeRole s = claimRoleMap (lowerStr s) ∧
    normalizeClaudeRole (normalizeClaudeRole s) = normalizeClaudeRole s := by
  have h : normalizeClaudeRole s = claimRoleMap (lowerStr s) := by
    unfold normalizeClaudeRole claimRoleMap
    by_cases h1 : lowerStr s = "assistant" <;>
      by_cases h2 : lowerStr s = "model" <;>
      by_cases h3 : lowerStr s = "user" <;>
      by_cases h4 : lowerStr s = "human" <;>
      by_cases h5 : lowerStr s = "system" <;>
      by_cases h6 : lowerStr s = "tool" <;>
      simp_all
  refine ⟨h, ?_⟩
  rw [h]
  unfold claimRoleMap
  split_ifs <;> decide

/-- Claim C10: a null upstream body closes the pump's stream at once with
zero frames (no `message_start`, no `message_stop`, no error), while the
returned response carries the upstream status and exactly the headers
`Content-Type: text/event-stream`, `Cache-Control: no-cache`,
`Connection: keep-alive`. -/
theorem claim_C10_null_body (decode : LineDecoder) (msgId : String) (status : Nat) :
    processProviderStream decode msgId status none =
      { status := status
        headers := [("Content-Type", "text/event-stream"),
                    ("Cache-Control", "no-cache"),
                    ("Connection", "keep-alive")]
        body := { frames := [], calls := [], aborted := none } } := rfl

/-- Claim C1, counterexample: a 500 response whose body parses as JSON
(here the empty object) is NOT classified failover — the keyword chain
finds no `error` field, 500 is not 401/403, and the `status >= 500` test
lives only in the JSON-parse-failure catch branch — so the response is
passed through to the client. -/
theorem claim_C1_counterexample :
    classifyOutcome "up" "https://u" 500 ⟨"\x7b\x7d", some (Json.jobj [])⟩ =
      ClassifyOutcome.passThrough := rfl

/-- Claim C4, counterexample: a 400 body `{"error":{"type":"billing"}}`
has no `error.message`, so `errorMsg` falls back to the `error` object
itself; `typeof errorMsg === 'string'` then fails and the `error.type`
keywords are never consulted: the response is passed through, although
the claim requires failover for type `billing`. -/
theorem claim_C4_counterexample :
    classifyOutcome "up" "https://u" 400
      ⟨"\x7b\"error\":\x7b\"type\":\"billing\"\x7d\x7d",
       some (Json.jobj [("error", Json.jobj [("type", Json.jstr "billing")])])⟩ =
      ClassifyOutcome.passThrough := rfl

/-- Claim C9, counterexample: with the chunk `"data: [DONE]"` and no
trailing newline the carry-over buffer at EOF is non-empty, yet the pump
makes ZERO decoder calls — the drain skips a `[DONE]` candidate — while
the claim demands exactly one final decoder call for a non-empty buffer. -/
theorem claim_C9_counterexample :
    (processStreamBody (totalize dec0) "m0" ["data: [DONE]"] none).calls = [] ∧
    (runChunks (totalize dec0) ["data: [DONE]"] "" 0 0).2.2 =
      Except.ok ("data: [DONE]", 0, 0) ∧
    trimStr "data: [DONE]" ≠ "" := by
  refine ⟨rfl, rfl, ?_⟩
  decide

/-- Claim C2, evaluated at the failing input: a two-key channel whose
keys both draw a 502 Cloudflare HTML page.  The loop records the
synthesized `UPSTREAM_CLOUDFLARE_CHALLENGE` body in `lastFailoverError`,
but because `providerResponse` still holds the last upstream response,
the `!providerResponse` branch that would send that body never runs: the
raw 502 HTML response is forwarded instead, and no deprioritization
happens. -/
theorem claim_C2_all_keys_fail_behavior :
    (runRouter envAll502 "chan" "https://up.example" ["k1", "k2"]).action =
      RouterAction.forward 502 ⟨cfHtmlBody, none⟩ ∧
    (runRouter envAll502 "chan" "https://up.example" ["k1", "k2"]).finalState.lastFailoverError =
      some (FailRecord.jsonBody 502
        (synthHtmlErrorBody (detectUpstreamHtmlError cfHtmlBody) "chan" "https://up.example")) ∧
    (detectUpstreamHtmlError cfHtmlBody).isCloudflare = true ∧
    (runRouter envAll502 "chan" "https://up.example" ["k1", "k2"]).deprioritized = [] :=
  ⟨rfl, rfl, rfl, rfl⟩

/-- The loop never clears `providerResponse`, and `lastFailoverError` is
only ever set in an iteration that has just assigned `providerResponse`:
the invariant `lastFailoverError set → providerResponse set` is preserved
by every step of `go`. -/
theorem go_dead_invariant (env : String → AttemptOutcome) (n u : String)
    (keys : List String) (fuel : Nat) :
    ∀ attempt st trace,
      (st.lastFailoverError.isSome → st.providerResponse.isSome) →
      (((go env n u keys fuel attempt st trace).1.lastFailoverError).isSome →
        ((go env n u keys fuel attempt st trace).1.providerResponse).isSome) := by
  induction fuel with
  | zero => intro attempt st trace h; simpa [go] using h
  | succ fuel ih =>
    intro attempt st trace h
    simp only [go]
    split
    · simpa using h
    · split
      · -- the attempt threw before a response was captured
        split
        · simpa using h
        · split
          · exact ih _ _ _ (by simpa using h)
          · simpa using h
      · -- the attempt captured a response
        split
        · intro _; simp
        · split
          · split
            · intro _; simp
            · split
              · apply ih
                intro _; simp
              · intro _; simp
          · intro _; simp

/-- Consequence: in the all-retries-failed branch (line 719),
`lastFailoverError` is necessarily `null`, so the branch that would
return the recorded upstream error (lines 722-728) is unreachable. -/
theorem runRouter_dead_branch (env : String → AttemptOutcome) (n u : String)
    (keys : List String) :
    (runRouter env n u keys).finalState.providerResponse = none →
    (runRouter env n u keys).finalState.lastFailoverError = none := by
  intro h
  have inv := go_dead_invariant env n u keys keys.length 0 initLoopState []
    (by simp [initLoopState])
  by_contra hne
  have : ((runRouter env n u keys).finalState.lastFailoverError).isSome := by
    cases hx : (runRouter env n u keys).finalState.lastFailoverError with
    | none => exact absurd hx hne
    | some r => simp
  have hsome := inv (by simpa [runRouter] using this)
  rw [show (runRouter env n u keys).finalState =
    (go env n u keys keys.length 0 initLoopState []).1 from rfl] at h
  simp [h] at hsome

/-- Claim C1, amended: a response with status ≥ 500 whose body does NOT
parse as JSON is always classified failover; the recorded failover error
is the synthesized structured body exactly when the raw body is HTML;
and within `detectUpstreamHtmlError` a Cloudflare challenge is flagged
exactly when the body is HTML and (case-insensitively) contains
`cloudflare` together with `just a moment` or `__cf_chl_opt`.  (A ≥ 500
response whose body parses as JSON instead follows the keyword/401/403
rules, as the counterexample shows.) -/
theorem claim_C1_amended (upName upBaseUrl : String) (status : Nat) (raw : String)
    (h5 : 500 ≤ status) :
    classifyOutcome upName upBaseUrl status ⟨raw, none⟩ = ClassifyOutcome.failover ∧
    (classifyFailure upName upBaseUrl status ⟨raw, none⟩).record =
      some (if (detectUpstreamHtmlError raw).isHtml then
          FailRecord.jsonBody status
            (synthHtmlErrorBody (detectUpstreamHtmlError raw) upName upBaseUrl)
        else FailRecord.rawText status raw) ∧
    ((detectUpstreamHtmlError raw).isCloudflare = true ↔
      ((detectUpstreamHtmlError raw).isHtml = true ∧
       containsS (lowerStr (trimStr raw)) "cloudflare" = true ∧
       (containsS (lowerStr (trimStr raw)) "just a moment" = true ∨
        containsS (lowerStr (trimStr raw)) "__cf_chl_opt" = true))) := by
  have hok : statusOk status = false := by
    simp only [statusOk]
    simp only [Bool.and_eq_false_imp, decide_eq_true_eq, decide_eq_false_iff_not]
    intro; omega
  have hcond : (decide (status = 401) || decide (status = 403) || decide (500 ≤ status)) = true := by
    simp [h5]
  have hcf : classifyFailure upName upBaseUrl status ⟨raw, none⟩ =
      classifyUnparsedBody upName upBaseUrl status raw := rfl
  have hsf : (classifyUnparsedBody upName upBaseUrl status raw).shouldFailover = true := by
    unfold classifyUnparsedBody
    rw [if_pos hcond]
  refine ⟨?_, ?_, ?_⟩
  · unfold classifyOutcome
    rw [hok, hcf, hsf]
    simp
  · rw [hcf]
    unfold classifyUnparsedBody
    rw [if_pos hcond]
  · unfold detectUpstreamHtmlError
    by_cases h0 : raw = ""
    · subst h0
      simp
    · rw [if_neg h0]
      by_cases hh : (startsWithS (lowerStr (trimStr raw)) "<!doctype html" ||
          startsWithS (lowerStr (trimStr raw)) "<html") = true
      · simp only [hh, Bool.not_true, if_false]
        by_cases hcl : (containsS (lowerStr (trimStr raw)) "cloudflare" &&
            (containsS (lowerStr (trimStr raw)) "just a moment" ||
             containsS (lowerStr (trimStr raw)) "__cf_chl_opt")) = true
        · simp only [hcl, if_true]
          simp only [Bool.and_eq_true, Bool.or_eq_true] at hcl
          simp [hcl.1, hcl.2]
        · simp only [hcl, if_false]
          simp only [Bool.and_eq_true, Bool.or_eq_true] at hcl
          simp only [iff_iff_implies_and_implies]
          constructor
          · intro habs; exact absurd habs (by simp)
          · rintro ⟨-, hc, hd⟩
            exact absurd ⟨hc, hd⟩ hcl
      · simp only [Bool.not_eq_true] at hh
        simp [hh]

/-- Claim C1 amended, witness at status 502 with a Cloudflare HTML body. -/
theorem claim_C1_amended_witness :
    500 ≤ 502 ∧
    classifyOutcome "u" "b" 502 ⟨cfHtmlBody, none⟩ = ClassifyOutcome.failover :=
  ⟨by decide, (claim_C1_amended "u" "b" 502 cfHtmlBody (by decide)).1⟩

/-- A parsed non-null body always takes the try-branch of the classifier. -/
theorem classifyFailure_parsed (upName upBaseUrl : String) (status : Nat)
    (raw : String) (j : Json) (hj : j ≠ Json.jnull) :
    classifyFailure upName upBaseUrl status ⟨raw, some j⟩ = classifyParsedBody status j := by
  cases j <;> simp_all [classifyFailure]

/-- The try-branch's failover flag and quota flag coincide with the
spec-side predicates (with 401/403 giving unconditional failover). -/
theorem classifyParsedBody_spec (status : Nat) (j : Json) :
    (classifyParsedBody status j).shouldFailover =
      (claim400Failover j || (decide (status = 401) || decide (status = 403))) ∧
    (classifyParsedBody status j).isQuotaRelated = claim400Quota j := by
  unfold classifyParsedBody claim400Failover claim400Quota errorField
    resolvedMessage resolvedTypeString
  cases hge : j.getProp "error" with
  | none => simp
  | some v =>
    by_cases hv : v.jsTruthy = true
    · simp only [hv, if_true]
      cases hm : v.getProp "message" with
      | none =>
        cases v <;> simp_all <;>
          rename_i kvs <;>
          by_cases hhit : (containsAny (lowerStr kvs) failoverMsgKeywords ||
            containsAny (lowerStr (match Json.getProp (Json.jstr kvs) "type" with
              | some t => if t.jsTruthy = true then t.jsToString else ""
              | none => "")) failoverTypeKeywords) = true <;>
          simp_all
      | some m =>
        by_cases hmt : m.jsTruthy = true
        · simp only [hmt, if_true]
          cases m <;> simp_all [Bool.and_comm] <;>
            split_ifs <;> simp_all
        · simp only [hmt, if_false]
          cases v <;> simp_all <;> split_ifs <;> simp_all
    · simp only [Bool.not_eq_true] at hv
      simp [hv]

/-- Claim C4, amended: a 400 response with a parsed (non-null) JSON body
is classified failover exactly when its truthy `error` field resolves to
a STRING message (`error.message` if truthy, else `error` itself) and
either that lowercased message contains one of 积分不足 / insufficient /
invalid / unauthorized / quota / rate limit / credit / balance, or the
lowercased `error.type` string contains one of permission / insufficient /
over_quota / billing; it is flagged quota-related exactly when,
additionally, the message contains 积分不足 / insufficient / credit /
balance / quota or the type contains over_quota / billing.  A 400 that
matches nothing is passed through unchanged. -/
theorem claim_C4_amended (upName upBaseUrl raw : String) (j : Json)
    (hj : j ≠ Json.jnull) :
    (classifyOutcome upName upBaseUrl 400 ⟨raw, some j⟩ = ClassifyOutcome.failover ↔
      claim400Failover j = true) ∧
    (classifyFailure upName upBaseUrl 400 ⟨raw, some j⟩).isQuotaRelated = claim400Quota j ∧
    (claim400Failover j = false →
      classifyOutcome upName upBaseUrl 400 ⟨raw, some j⟩ = ClassifyOutcome.passThrough) := by
  have hcf := classifyFailure_parsed upName upBaseUrl 400 raw j hj
  have hspec := classifyParsedBody_spec 400 j
  have hsf : (classifyFailure upName upBaseUrl 400 ⟨raw, some j⟩).shouldFailover =
      claim400Failover j := by
    rw [hcf, hspec.1]; simp
  have hok : statusOk 400 = false := by decide
  refine ⟨?_, ?_, ?_⟩
  · unfold classifyOutcome
    rw [hok, hsf]
    cases claim400Failover j <;> simp
  · rw [hcf, hspec.2]
  · intro hno
    unfold classifyOutcome
    rw [hok, hsf, hno]
    simp

/-- Claim C4 amended, witness: `{"error":{"message":"credit balance too
low","type":"billing"}}` on a 400 is failover and quota-related. -/
theorem claim_C4_amended_witness :
    (Json.jobj [("error", Json.jobj [("message", Json.jstr "credit balance too low"),
        ("type", Json.jstr "billing")])] ≠ Json.jnull) ∧
    classifyOutcome "u" "b" 400
      ⟨"x", some (Json.jobj [("error", Json.jobj [("message", Json.jstr "credit balance too low"),
        ("type", Json.jstr "billing")])])⟩ = ClassifyOutcome.failover ∧
    (classifyFailure "u" "b" 400
      ⟨"x", some (Json.jobj [("error", Json.jobj [("message", Json.jstr "credit balance too low"),
        ("type", Json.jstr "billing")])])⟩).isQuotaRelated = true :=
  ⟨by simp,
   (claim_C4_amended "u" "b" "x" _ (by simp)).1.mpr rfl,
   by rw [(claim_C4_amended "u" "b" "x" _ (by simp)).2.1]; rfl⟩

/-- `quotaKeysAcc` distributes over trace concatenation. -/
theorem quotaKeysAcc_append (n u : String) (acc : List String)
    (t1 t2 : List (String × AttemptOutcome)) :
    quotaKeysAcc n u acc (t1 ++ t2) = quotaKeysAcc n u (quotaKeysAcc n u acc t1) t2 := by
  induction t1 generalizing acc with
  | nil => rfl
  | cons e rest ih =>
    obtain ⟨k, out⟩ := e
    cases out <;> simp [quotaKeysAcc, ih]

/-- Through every step of the loop, the deprioritization-candidate set
equals the quota-failed keys of the trace executed so far. -/
theorem go_candidates (env : String → AttemptOutcome) (n u : String)
    (keys : List String) (fuel : Nat) :
    ∀ attempt st trace,
      st.deprioritizeCandidates = quotaKeysAcc n u [] trace →
      (go env n u keys fuel attempt st trace).1.deprioritizeCandidates =
        quotaKeysAcc n u [] (go env n u keys fuel attempt st trace).2 := by
  induction fuel with
  | zero => intro attempt st trace h; simpa [go] using h
  | succ fuel ih =>
    intro attempt st trace h
    simp only [go]
    split
    · simpa using h
    · rename_i k hk
      split
      · -- the attempt threw before a response was captured
        rename_i msg he
        have htr : st.deprioritizeCandidates =
            quotaKeysAcc n u [] (trace ++ [(k, AttemptOutcome.threw msg)]) := by
          rw [quotaKeysAcc_append, ← h]; rfl
        split
        · simpa using htr
        · split
          · exact ih _ _ _ (by simpa using htr)
          · simpa using htr
      · rename_i status body he
        split
        · -- success break
          rename_i hok
          have htr : st.deprioritizeCandidates =
              quotaKeysAcc n u [] (trace ++ [(k, AttemptOutcome.gotResponse status body)]) := by
            rw [quotaKeysAcc_append, ← h]
            simp [quotaKeysAcc, hok]
          simpa using htr
        · rename_i hok
          split
          · -- failover throw
            rename_i hsf
            have htr : (if (classifyFailure n u status body).isQuotaRelated = true ∧ ¬ k = "" then
                  addCandidate st.deprioritizeCandidates k
                else st.deprioritizeCandidates) =
                quotaKeysAcc n u [] (trace ++ [(k, AttemptOutcome.gotResponse status body)]) := by
              rw [quotaKeysAcc_append, ← h]
              by_cases hq : (classifyFailure n u status body).isQuotaRelated = true
              · by_cases hke : k = "" <;> simp [quotaKeysAcc, hok, hsf, hq, hke]
              · simp [quotaKeysAcc, hok, hsf, hq]
            split
            · simpa using htr
            · split
              · exact ih _ _ _ (by simpa using htr)
              · simpa using htr
          · -- fatal pass-through break
            rename_i hsf
            have htr : st.deprioritizeCandidates =
                quotaKeysAcc n u [] (trace ++ [(k, AttemptOutcome.gotResponse status body)]) := by
              rw [quotaKeysAcc_append, ← h]
              simp [quotaKeysAcc, hok, hsf]
            simpa using htr

/-- Claim C5: deprioritization calls are made exactly when the request's
final response is a forwarded 2xx, and then exactly for the keys whose
attempts failed with a quota-related failover classification during this
request (in first-failure order); on fatal pass-through, exhaustion, or
absence of quota-related failures, no call is made (so the router leaves
the channel's persisted key order untouched). -/
theorem claim_C5_deprioritization (env : String → AttemptOutcome) (n u : String)
    (keys : List String) :
    (runRouter env n u keys).deprioritized =
      (if isSuccessAction (runRouter env n u keys).action then
        quotaKeysAcc n u [] (runRouter env n u keys).trace
      else []) := by
  have hc := go_candidates env n u keys keys.length 0 initLoopState [] (by rfl)
  have hfin : (runRouter env n u keys).deprioritized =
      (finishRouter (go env n u keys keys.length 0 initLoopState []).1).2 := rfl
  have hact : (runRouter env n u keys).action =
      (finishRouter (go env n u keys keys.length 0 initLoopState []).1).1 := rfl
  have htrace : (runRouter env n u keys).trace =
      (go env n u keys keys.length 0 initLoopState []).2 := rfl
  rw [hfin, hact, htrace]
  rw [← hc]
  unfold finishRouter
  cases hpr : (go env n u keys keys.length 0 initLoopState []).1.providerResponse with
  | none =>
    cases hlf : (go env n u keys keys.length 0 initLoopState []).1.lastFailoverError with
    | none => simp [isSuccessAction]
    | some r => cases r <;> simp [isSuccessAction]
  | some sb =>
    obtain ⟨status, body⟩ := sb
    by_cases hok : statusOk status = true
    · by_cases he :
        (go env n u keys keys.length 0 initLoopState []).1.deprioritizeCandidates = []
      · simp [isSuccessAction, hok, he]
      · simp [isSuccessAction, hok, List.isEmpty_iff, he]
    · simp [isSuccessAction, hok]

/-- Every frame the inner line loop forwards comes from the decoder. -/
theorem runLines_frames (d : LineDecoder) :
    ∀ (ls : List String) (ti tui : Nat),
      ∃ evs : List String, (runLines d ti tui ls).1 = evs.map Frame.payload := by
  intro ls
  induction ls with
  | nil => intro ti tui; exact ⟨[], rfl⟩
  | cons line rest ih =>
    intro ti tui
    simp only [runLines]
    split
    · exact ih ti tui
    · split
      · exact ih ti tui
      · split
        · exact ih ti tui
        · split
          · exact ⟨[], rfl⟩
          · obtain ⟨evs, he⟩ := ih ti tui
            exact ⟨evs, by simp [he]⟩
          · rename_i r heq
            obtain ⟨evs, he⟩ := ih r.textBlockIndex r.toolUseBlockIndex
            exact ⟨r.events ++ evs, by simp [he]⟩

/-- Every frame the chunk loop forwards comes from the decoder. -/
theorem runChunks_frames (d : LineDecoder) :
    ∀ (chunks : List String) (buffer : String) (ti tui : Nat),
      ∃ evs : List String, (runChunks d chunks buffer ti tui).1 = evs.map Frame.payload := by
  intro chunks
  induction chunks with
  | nil => intro buffer ti tui; exact ⟨[], rfl⟩
  | cons chunk rest ih =>
    intro buffer ti tui
    simp only [runChunks]
    obtain ⟨evs1, he1⟩ :=
      runLines_frames d (splitLines (buffer ++ chunk)).dropLast ti tui
    split
    · rename_i fs cs e heq
      refine ⟨evs1, ?_⟩
      have : fs = (runLines d ti tui (splitLines (buffer ++ chunk)).dropLast).1 := by
        rw [heq]
      rw [this] at heq ⊢
      exact he1
    · rename_i fs cs ti' tui' heq
      obtain ⟨evs2, he2⟩ :=
        ih ((splitLines (buffer ++ chunk)).getLast?.getD "") ti' tui'
      refine ⟨evs1 ++ evs2, ?_⟩
      have hfs : fs = (runLines d ti tui (splitLines (buffer ++ chunk)).dropLast).1 := by
        rw [heq]
      simp [hfs, he1, he2]

/-- Every frame the drain forwards comes from the decoder. -/
theorem drainBuffer_frames (d : LineDecoder) (buffer : String) (ti tui : Nat) :
    ∃ evs : List String, (drainBuffer d buffer ti tui).1 = evs.map Frame.payload := by
  unfold drainBuffer
  split
  · exact ⟨[], rfl⟩
  · dsimp only
    split
    · exact ⟨[], rfl⟩
    · split
      · exact ⟨[], rfl⟩
      · split
        · exact ⟨[], rfl⟩
        · exact ⟨[], rfl⟩
        · rename_i r heq
          exact ⟨r.events, rfl⟩

/-- Frame predicate: is this the `message_start` frame? -/
def isStartFrame : Frame → Bool
  | Frame.messageStart _ => true
  | _ => false

/-- Payload frames are neither `message_start` nor `message_stop`. -/
theorem payload_frames_neutral (evs : List String) :
    (evs.map Frame.payload).countP isStartFrame = 0 ∧
    (evs.map Frame.payload).count Frame.messageStop = 0 ∧
    Frame.messageStop ∉ evs.map Frame.payload := by
  refine ⟨?_, ?_, ?_⟩
  · simp [List.countP_eq_zero, isStartFrame]
  · simp [List.count_eq_zero]
  · simp

/-- Claim C3: over any upstream body the pump's first frame is the unique
`message_start`; when the reads and the decoder complete without
throwing, the stream closes and its last frame is the unique
`message_stop`; when the decoder throws or a read errors, the stream is
put into an error state and contains no `message_stop` at all. -/
theorem claim_C3_stream_framing (decode : LineDecoder) (msgId : String)
    (chunks : List String) (readErr : Option String) :
    (processStreamBody decode msgId chunks readErr).frames.head? =
      some (Frame.messageStart msgId) ∧
    (processStreamBody decode msgId chunks readErr).frames.countP isStartFrame = 1 ∧
    ((processStreamBody decode msgId chunks readErr).aborted = none →
      (processStreamBody decode msgId chunks readErr).frames.getLast? =
        some Frame.messageStop ∧
      (processStreamBody decode msgId chunks readErr).frames.count Frame.messageStop = 1) ∧
    (∀ e, (processStreamBody decode msgId chunks readErr).aborted = some e →
      Frame.messageStop ∉ (processStreamBody decode msgId chunks readErr).frames) ∧
    (readErr ≠ none → (processStreamBody decode msgId chunks readErr).aborted ≠ none) := by
  obtain ⟨evs1, he1⟩ := runChunks_frames decode chunks "" 0 0
  unfold processStreamBody
  split
  · rename_i fs cs e heq
    have hfs : fs = evs1.map Frame.payload := by
      have : fs = (runChunks decode chunks "" 0 0).1 := by rw [heq]
      rw [this, he1]
    subst hfs
    obtain ⟨hs, hc, hm⟩ := payload_frames_neutral evs1
    refine ⟨rfl, ?_, ?_, ?_, ?_⟩
    · simp [List.countP_cons, hs, isStartFrame]
    · intro habs; simp at habs
    · intro e' _
      simp [hm]
    · intro _; simp
  · rename_i fs cs buffer ti tui heq
    have hfs : fs = evs1.map Frame.payload := by
      have : fs = (runChunks decode chunks "" 0 0).1 := by rw [heq]
      rw [this, he1]
    subst hfs
    obtain ⟨hs, hc, hm⟩ := payload_frames_neutral evs1
    cases readErr with
    | some e =>
      refine ⟨rfl, ?_, ?_, ?_, ?_⟩
      · simp [List.countP_cons, hs, isStartFrame]
      · intro habs; simp at habs
      · intro e' _
        simp [hm]
      · intro _; simp
    | none =>
      obtain ⟨evs2, he2⟩ := drainBuffer_frames decode buffer ti tui
      rcases hD : drainBuffer decode buffer ti tui with ⟨fs2, cs2, ab⟩
      rw [hD] at he2
      simp only at he2
      subst he2
      obtain ⟨hs2, hc2, hm2⟩ := payload_frames_neutral evs2
      cases ab with
      | some e =>
        dsimp only
        refine ⟨rfl, ?_, ?_, ?_, ?_⟩
        · simp [List.countP_cons, List.countP_append, hs, hs2, isStartFrame]
        · intro habs; simp at habs
        · intro e' _
          simp [hm, hm2]
        · intro h; simp
      | none =>
        dsimp only
        refine ⟨rfl, ?_, ?_, ?_, ?_⟩
        · simp [List.countP_cons, List.countP_append, hs, hs2, isStartFrame]
        · intro _
          constructor
          · rw [show Frame.messageStart msgId ::
                (evs1.map Frame.payload ++ evs2.map Frame.payload ++ [Frame.messageStop]) =
                (Frame.messageStart msgId ::
                  (evs1.map Frame.payload ++ evs2.map Frame.payload)) ++ [Frame.messageStop]
              by simp]
            exact List.getLast?_concat _
          · simp [List.count_cons, List.count_append, hc, hc2]
        · intro e' habs; simp at habs
        · intro h; exact absurd rfl h

/-- Claim C3, witness: a well-formed stream ends in `message_stop`; a
throwing decoder aborts the stream, which then contains no
`message_stop`. -/
theorem claim_C3_stream_framing_witness :
    (processStreamBody (totalize dec0) "w3" ["a\n"] none).aborted = none ∧
    (processStreamBody (totalize dec0) "w3" ["a\n"] none).frames.getLast? =
      some Frame.messageStop ∧
    (processStreamBody decFail "w3" ["a\n"] none).aborted = some "boom" ∧
    Frame.messageStop ∉ (processStreamBody decFail "w3" ["a\n"] none).frames :=
  ⟨rfl,
   ((claim_C3_stream_framing (totalize dec0) "w3" ["a\n"] none).2.2.1 rfl).1,
   rfl,
   (claim_C3_stream_framing decFail "w3" ["a\n"] none).2.2.2.1 "boom" rfl⟩

/-! ### Split/merge lemmas for the C9 framing equivalence -/

/-- `splitSegs` always returns at least one segment. -/
theorem splitSegs_nonempty (l : List Char) : splitSegs l ≠ [] := by
  induction l with
  | nil => simp [splitSegs]
  | cons c rest ih =>
    simp only [splitSegs]
    split
    · simp
    · split
      · simp
      · simp

/-- No segment of a split contains a newline. -/
theorem splitSegs_no_newline (l : List Char) : ∀ s ∈ splitSegs l, '\n' ∉ s := by
  induction l with
  | nil =>
    intro s hs
    simp only [splitSegs, List.mem_singleton] at hs
    subst hs
    simp
  | cons c rest ih =>
    intro s hs
    simp only [splitSegs] at hs
    by_cases hc : c = '\n'
    · rw [if_pos hc] at hs
      rcases List.mem_cons.mp hs with hse | hs2
      · subst hse; simp
      · exact ih s hs2
    · rw [if_neg hc] at hs
      cases hsr : splitSegs rest with
      | nil => exact absurd hsr (splitSegs_nonempty rest)
      | cons s0 ss =>
        rw [hsr] at hs
        rcases List.mem_cons.mp hs with hse | hs2
        · subst hse
          intro hmem
          rcases List.mem_cons.mp hmem with hme | hm2
          · exact hc hme.symm
          · exact ih s0 (by rw [hsr]; exact List.mem_cons_self _ _) hm2
        · exact ih s (by rw [hsr]; exact List.mem_cons_of_mem _ hs2)

/-- A newline-free list splits into itself alone. -/
theorem splitSegs_single (l : List Char) (h : '\n' ∉ l) : splitSegs l = [l] := by
  induction l with
  | nil => rfl
  | cons c rest ih =>
    have hc : ¬ c = '\n' := by
      intro hc; exact h (by rw [hc]; exact List.mem_cons_self _ _)
    have hr : splitSegs rest = [rest] := ih (fun hm => h (List.mem_cons_of_mem _ hm))
    simp [splitSegs, hc, hr]

/-- Splitting a concatenation merges the boundary segments. -/
theorem splitSegs_glue (a b : List Char) :
    splitSegs (a ++ b) = glueSegs (splitSegs a) (splitSegs b) := by
  induction a with
  | nil =>
    cases hb : splitSegs b with
    | nil => exact absurd hb (splitSegs_nonempty b)
    | cons y ys =>
      show splitSegs b = glueSegs [[]] (y :: ys)
      rw [hb]
      rfl
  | cons c a ih =>
    by_cases hc : c = '\n'
    · subst hc
      simp only [List.cons_append, splitSegs, if_pos rfl, ih]
      cases hsa : splitSegs a with
      | nil => exact absurd hsa (splitSegs_nonempty a)
      | cons s ss => simp [glueSegs, ih, hsa]
    · simp only [List.cons_append, splitSegs, if_neg hc]
      cases hsa : splitSegs a with
      | nil => exact absurd hsa (splitSegs_nonempty a)
      | cons s ss =>
        cases hsb : splitSegs b with
        | nil => exact absurd hsb (splitSegs_nonempty b)
        | cons y ys =>
          cases ss with
          | nil => simp [glueSegs, ih, hsa, hsb]
          | cons s2 ss2 => simp [glueSegs, ih, hsa, hsb]

/-- `glueSegs` peels off the left run's initial segments. -/
theorem glueSegs_peel (x : List Char) (Y : List (List Char)) :
    ∀ X, glueSegs (X ++ [x]) Y = X ++ glueSegs [x] Y := by
  intro X
  induction X with
  | nil => simp
  | cons a as ih =>
    cases has : as ++ [x] with
    | nil => exact absurd has (by simp)
    | cons z zs =>
      simp only [List.cons_append, glueSegs, has]
      rw [← has, ih]

/-- A map distributes over `dropLast`. -/
theorem dropLast_map {α β : Type} (f : α → β) (l : List α) :
    (l.map f).dropLast = l.dropLast.map f := by
  induction l with
  | nil => rfl
  | cons a l ih =>
    cases l with
    | nil => rfl
    | cons b l2 =>
      have ih2 := ih
      simp only [List.map_cons] at ih2
      simp only [List.map_cons, List.dropLast_cons₂, ih2]

/-- The last segment of a split carried over as the buffer is newline-free. -/
theorem carryOver_no_newline (s : String) :
    '\n' ∉ (((splitLines s).getLast?).getD "").data := by
  cases hg : (splitLines s).getLast? with
  | none =>
    rw [List.getLast?_eq_none_iff] at hg
    have : splitSegs s.data ≠ [] := splitSegs_nonempty s.data
    simp [splitLines] at hg
    exact absurd hg this
  | some x =>
    have hx : x ∈ splitLines s := List.mem_of_mem_getLast? hg
    simp only [splitLines, List.mem_map] at hx
    obtain ⟨seg, hseg, hxe⟩ := hx
    have := splitSegs_no_newline s.data seg hseg
    simp only [Option.getD_some]
    rw [← hxe]
    exact this

/-- `claimLineCalls` composes over concatenation of line lists. -/
theorem claimLineCalls_append (d : TotalLineDecoder) :
    ∀ (A B : List String) (ti tui : Nat),
      claimLineCalls d (A ++ B) ti tui =
        ((claimLineCalls d A ti tui).1 ++
          (claimLineCalls d B (claimLineCalls d A ti tui).2.1
            (claimLineCalls d A ti tui).2.2).1,
         (claimLineCalls d B (claimLineCalls d A ti tui).2.1
            (claimLineCalls d A ti tui).2.2).2) := by
  intro A
  induction A with
  | nil => intro B ti tui; rfl
  | cons l rest ih =>
    intro B ti tui
    simp only [List.cons_append, claimLineCalls]
    split
    · exact ih B ti tui
    · cases hd : d (specCandidate l) ti tui with
      | none => simp [ih B ti tui]
      | some r => simp [ih B r.textBlockIndex r.toolUseBlockIndex]

/-- The pump's inner line loop makes exactly the calls of the claimed
per-line algorithm, never errors for a total decoder, and ends in the
claimed indices. -/
theorem runLines_calls (d : TotalLineDecoder) :
    ∀ (ls : List String) (ti tui : Nat),
      (runLines (totalize d) ti tui ls).2.1 = (claimLineCalls d ls ti tui).1 ∧
      (runLines (totalize d) ti tui ls).2.2 =
        Except.ok ((claimLineCalls d ls ti tui).2.1, (claimLineCalls d ls ti tui).2.2) := by
  intro ls
  induction ls with
  | nil => intro ti tui; exact ⟨rfl, rfl⟩
  | cons line rest ih =>
    intro ti tui
    have hcand : specCandidate line = extractData (trimStr line) := rfl
    by_cases ht : trimStr line = ""
    · have hc : specCandidate line = "" := by
        rw [hcand, ht]; decide
      have e1 : runLines (totalize d) ti tui (line :: rest) =
          runLines (totalize d) ti tui rest := by
        simp only [runLines]
        rw [if_pos ht]
      have e2 : claimLineCalls d (line :: rest) ti tui = claimLineCalls d rest ti tui := by
        simp only [claimLineCalls]
        rw [if_pos (by simp [hc])]
      rw [e1, e2]
      exact ih ti tui
    · by_cases hdone : extractData (trimStr line) = "[DONE]"
      · have e1 : runLines (totalize d) ti tui (line :: rest) =
            runLines (totalize d) ti tui rest := by
          simp only [runLines]
          rw [if_neg ht]
          rw [if_pos hdone]
        have e2 : claimLineCalls d (line :: rest) ti tui = claimLineCalls d rest ti tui := by
          simp only [claimLineCalls]
          rw [if_pos (by simp [hcand, hdone])]
        rw [e1, e2]
        exact ih ti tui
      · by_cases hemp : extractData (trimStr line) = ""
        · have e1 : runLines (totalize d) ti tui (line :: rest) =
              runLines (totalize d) ti tui rest := by
            simp only [runLines]
            rw [if_neg ht]
            rw [if_neg hdone, if_pos hemp]
          have e2 : claimLineCalls d (line :: rest) ti tui =
              claimLineCalls d rest ti tui := by
            simp only [claimLineCalls]
            rw [if_pos (by simp [hcand, hemp])]
          rw [e1, e2]
          exact ih ti tui
        · have hcond : ¬ ((decide (specCandidate line = "") ||
              decide (specCandidate line = "[DONE]")) = true) := by
            simp [hcand, hemp, hdone]
          cases hd : d (extractData (trimStr line)) ti tui with
          | none =>
            have e1 : runLines (totalize d) ti tui (line :: rest) =
                ((runLines (totalize d) ti tui rest).1,
                 (extractData (trimStr line), ti, tui) ::
                   (runLines (totalize d) ti tui rest).2.1,
                 (runLines (totalize d) ti tui rest).2.2) := by
              simp only [runLines]
              rw [if_neg ht]
              rw [if_neg hdone, if_neg hemp]
              simp only [totalize]
              rw [hd]
            have e2 : claimLineCalls d (line :: rest) ti tui =
                ((specCandidate line, ti, tui) :: (claimLineCalls d rest ti tui).1,
                 (claimLineCalls d rest ti tui).2) := by
              simp only [claimLineCalls]
              rw [if_neg hcond]
              simp only [specCandidate]
              rw [hd]
            obtain ⟨ihc, ihs⟩ := ih ti tui
            rw [e1, e2]
            exact ⟨by simp [ihc, hcand], by simpa using ihs⟩
          | some r =>
            have e1 : runLines (totalize d) ti tui (line :: rest) =
                (r.events.map Frame.payload ++
                   (runLines (totalize d) r.textBlockIndex r.toolUseBlockIndex rest).1,
                 (extractData (trimStr line), ti, tui) ::
                   (runLines (totalize d) r.textBlockIndex r.toolUseBlockIndex rest).2.1,
                 (runLines (totalize d) r.textBlockIndex r.toolUseBlockIndex rest).2.2) := by
              simp only [runLines]
              rw [if_neg ht]
              rw [if_neg hdone, if_neg hemp]
              simp only [totalize]
              rw [hd]
            have e2 : claimLineCalls d (line :: rest) ti tui =
                ((specCandidate line, ti, tui) ::
                   (claimLineCalls d rest r.textBlockIndex r.toolUseBlockIndex).1,
                 (claimLineCalls d rest r.textBlockIndex r.toolUseBlockIndex).2) := by
              simp only [claimLineCalls]
              rw [if_neg hcond]
              simp only [specCandidate]
              rw [hd]
            obtain ⟨ihc, ihs⟩ := ih r.textBlockIndex r.toolUseBlockIndex
            rw [e1, e2]
            exact ⟨by simp [ihc, hcand], by simpa using ihs⟩

/-- `String.mk` undoes `String.data`. -/
theorem stringMk_data (s : String) : String.mk s.data = s := by
  cases s
  rfl

/-- Appending the empty string on the right is the identity. -/
theorem append_empty_str (s : String) : s ++ "" = s := by
  apply String.ext
  show s.data ++ ([] : List Char) = s.data
  exact List.append_nil _

/-- Appending the empty string on the left is the identity. -/
theorem empty_append_str (s : String) : "" ++ s = s := by
  apply String.ext
  show ([] : List Char) ++ s.data = s.data
  exact List.nil_append _

/-- String append is associative. -/
theorem append_assoc_str (a b c : String) : (a ++ b) ++ c = a ++ (b ++ c) := by
  apply String.ext
  show (a.data ++ b.data) ++ c.data = a.data ++ (b.data ++ c.data)
  exact List.append_assoc _ _ _

/-- `splitLines` never returns the empty list. -/
theorem splitLines_ne_nil (s : String) : splitLines s ≠ [] := by
  simp only [splitLines]
  intro h
  exact splitSegs_nonempty s.data (List.map_eq_nil_iff.mp h)

/-- The chunk loop of the pump makes exactly the calls of the claimed
per-line algorithm over the complete lines of the whole remaining text,
never errors for a total decoder, and ends with the claimed final buffer
and indices. -/
theorem runChunks_calls (d : TotalLineDecoder) :
    ∀ (chunks : List String) (buffer : String) (ti tui : Nat),
      '\n' ∉ buffer.data →
      (runChunks (totalize d) chunks buffer ti tui).2.1 =
        (claimLineCalls d (splitLines (buffer ++ concatStr chunks)).dropLast ti tui).1 ∧
      (runChunks (totalize d) chunks buffer ti tui).2.2 =
        Except.ok (((splitLines (buffer ++ concatStr chunks)).getLast?).getD "",
          (claimLineCalls d (splitLines (buffer ++ concatStr chunks)).dropLast ti tui).2.1,
          (claimLineCalls d (splitLines (buffer ++ concatStr chunks)).dropLast ti tui).2.2) := by
  intro chunks
  induction chunks with
  | nil =>
    intro buffer ti tui hnb
    have hb : buffer ++ concatStr [] = buffer := append_empty_str buffer
    rw [hb]
    have hsplit : splitLines buffer = [buffer] := by
      simp only [splitLines]
      rw [splitSegs_single buffer.data hnb]
      simp [stringMk_data]
    rw [hsplit]
    exact ⟨rfl, rfl⟩
  | cons chunk rest ih =>
    intro buffer ti tui hnb
    have hS1ne : splitSegs (buffer ++ chunk).data ≠ [] :=
      splitSegs_nonempty (buffer ++ chunk).data
    have hNB2 : '\n' ∉ ((((splitLines (buffer ++ chunk)).getLast?).getD "").data) :=
      carryOver_no_newline (buffer ++ chunk)
    have hNBdata : (((splitLines (buffer ++ chunk)).getLast?).getD "").data =
        (splitSegs (buffer ++ chunk).data).getLast hS1ne := by
      simp only [splitLines]
      rw [List.getLast?_map, List.getLast?_eq_getLast _ hS1ne]
      rfl
    rcases hCL : claimLineCalls d (splitLines (buffer ++ chunk)).dropLast ti tui with
      ⟨c1, a1, b1⟩
    obtain ⟨hL1, hL2⟩ := runLines_calls d (splitLines (buffer ++ chunk)).dropLast ti tui
    rw [hCL] at hL1 hL2
    simp only at hL1 hL2
    -- the total text regroups around the carried-over segment
    have htot : buffer ++ concatStr (chunk :: rest) = (buffer ++ chunk) ++ concatStr rest := by
      show buffer ++ (chunk ++ concatStr rest) = (buffer ++ chunk) ++ concatStr rest
      rw [append_assoc_str]
    have hsegmerge : splitSegs ((buffer ++ chunk).data ++ (concatStr rest).data) =
        (splitSegs (buffer ++ chunk).data).dropLast ++
          splitSegs ((((splitLines (buffer ++ chunk)).getLast?).getD "").data ++
            (concatStr rest).data) := by
      rw [splitSegs_glue]
      rw [show splitSegs ((((splitLines (buffer ++ chunk)).getLast?).getD "").data ++
          (concatStr rest).data) =
          glueSegs (splitSegs (((splitLines (buffer ++ chunk)).getLast?).getD "").data)
            (splitSegs (concatStr rest).data) from splitSegs_glue _ _]
      rw [splitSegs_single _ hNB2, hNBdata]
      conv_lhs =>
        rw [← List.dropLast_append_getLast hS1ne]
      rw [glueSegs_peel]
    have hmerge : splitLines (buffer ++ concatStr (chunk :: rest)) =
        (splitLines (buffer ++ chunk)).dropLast ++
          splitLines (((splitLines (buffer ++ chunk)).getLast?).getD "" ++ concatStr rest) := by
      rw [htot]
      show List.map String.mk (splitSegs ((buffer ++ chunk) ++ concatStr rest).data) = _
      rw [show ((buffer ++ chunk) ++ concatStr rest).data =
          (buffer ++ chunk).data ++ (concatStr rest).data from rfl]
      rw [hsegmerge, List.map_append, ← dropLast_map]
      rfl
    have hrest_ne : splitLines (((splitLines (buffer ++ chunk)).getLast?).getD "" ++
        concatStr rest) ≠ [] := splitLines_ne_nil _
    have hdropTotal : (splitLines (buffer ++ concatStr (chunk :: rest))).dropLast =
        (splitLines (buffer ++ chunk)).dropLast ++
          (splitLines (((splitLines (buffer ++ chunk)).getLast?).getD "" ++
            concatStr rest)).dropLast := by
      rw [hmerge, List.dropLast_append]
      rw [if_neg (by simpa [List.isEmpty_iff] using hrest_ne)]
    have hlastTotal : (splitLines (buffer ++ concatStr (chunk :: rest))).getLast? =
        (splitLines (((splitLines (buffer ++ chunk)).getLast?).getD "" ++
          concatStr rest)).getLast? := by
      rw [hmerge, List.getLast?_append]
      cases hgl : (splitLines (((splitLines (buffer ++ chunk)).getLast?).getD "" ++
          concatStr rest)).getLast? with
      | none => exact absurd (List.getLast?_eq_none_iff.mp hgl) hrest_ne
      | some x => rfl
    obtain ⟨ihc, ihs⟩ := ih (((splitLines (buffer ++ chunk)).getLast?).getD "") a1 b1 hNB2
    have hccall := claimLineCalls_append d (splitLines (buffer ++ chunk)).dropLast
      (splitLines (((splitLines (buffer ++ chunk)).getLast?).getD "" ++
        concatStr rest)).dropLast ti tui
    rw [hCL] at hccall
    simp only at hccall
    -- reduce the runChunks step
    have estep1 : (runChunks (totalize d) (chunk :: rest) buffer ti tui).2.1 =
        c1 ++ (runChunks (totalize d) rest
          (((splitLines (buffer ++ chunk)).getLast?).getD "") a1 b1).2.1 := by
      simp only [runChunks]
      rcases hR : runLines (totalize d) ti tui (splitLines (buffer ++ chunk)).dropLast with
        ⟨fs, cs, res⟩
      rw [hR] at hL1 hL2
      simp only at hL1 hL2
      subst hL1
      subst hL2
      rfl
    have estep2 : (runChunks (totalize d) (chunk :: rest) buffer ti tui).2.2 =
        (runChunks (totalize d) rest
          (((splitLines (buffer ++ chunk)).getLast?).getD "") a1 b1).2.2 := by
      simp only [runChunks]
      rcases hR : runLines (totalize d) ti tui (splitLines (buffer ++ chunk)).dropLast with
        ⟨fs, cs, res⟩
      rw [hR] at hL1 hL2
      simp only at hL1 hL2
      subst hL1
      subst hL2
      rfl
    constructor
    · rw [estep1, ihc, hdropTotal, hccall]
    · rw [estep2, ihs, hdropTotal, hccall, hlastTotal]

/-- The EOF drain performs the amended-claim call pattern and never
errors for a total decoder. -/
theorem drainBuffer_calls (d : TotalLineDecoder) (B : String) (ti tui : Nat) :
    (drainBuffer (totalize d) B ti tui).2.1 =
      (if specCandidate B ≠ "" ∧ specCandidate B ≠ "[DONE]" then
        [(specCandidate B, ti, tui)]
      else []) ∧
    (drainBuffer (totalize d) B ti tui).2.2 = none := by
  by_cases h0 : trimStr B = ""
  · have hc : specCandidate B = "" := by
      show extractData (trimStr B) = ""
      rw [h0]; decide
    have e : drainBuffer (totalize d) B ti tui = ([], [], none) := by
      unfold drainBuffer
      rw [if_pos h0]
    rw [e]
    simp [hc]
  · have hcand : specCandidate B = extractData (trimStr B) := rfl
    by_cases hemp : extractData (trimStr B) = ""
    · have e : drainBuffer (totalize d) B ti tui = ([], [], none) := by
        unfold drainBuffer
        rw [if_neg h0]
        dsimp only
        rw [if_pos hemp]
      rw [e]
      simp [hcand, hemp]
    · by_cases hdone : extractData (trimStr B) = "[DONE]"
      · have e : drainBuffer (totalize d) B ti tui = ([], [], none) := by
          unfold drainBuffer
          rw [if_neg h0]
          dsimp only
          rw [if_neg hemp, if_pos hdone]
        rw [e]
        simp [hcand, hdone]
      · cases hd : d (extractData (trimStr B)) ti tui with
        | none =>
          have e : drainBuffer (totalize d) B ti tui =
              ([], [(extractData (trimStr B), ti, tui)], none) := by
            unfold drainBuffer
            rw [if_neg h0]
            dsimp only
            rw [if_neg hemp, if_neg hdone]
            simp only [totalize]
            rw [hd]
          rw [e]
          simp [hcand, hemp, hdone]
        | some r =>
          have e : drainBuffer (totalize d) B ti tui =
              (r.events.map Frame.payload, [(extractData (trimStr B), ti, tui)], none) := by
            unfold drainBuffer
            rw [if_neg h0]
            dsimp only
            rw [if_neg hemp, if_neg hdone]
            simp only [totalize]
            rw [hd]
          rw [e]
          simp [hcand, hemp, hdone]

/-- Claim C9, amended: for every upstream chunk sequence and every
non-throwing decoder, the pump's decoder-invocation trace equals the
claimed framing algorithm's trace — split the concatenated text on
newlines keeping the last segment as buffer, trim and `data:`-extract
each complete line, skip empty candidates and `[DONE]`, thread the block
indices through the decoder — with the EOF drain calling the decoder
exactly once when the buffer's candidate is non-empty and not `[DONE]`,
and not at all otherwise. -/
theorem claim_C9_amended (d : TotalLineDecoder) (msgId : String) (chunks : List String) :
    (processStreamBody (totalize d) msgId chunks none).calls = claimFramingCalls d chunks := by
  have h0 : '\n' ∉ (("" : String)).data := by
    have : (("" : String)).data = [] := rfl
    rw [this]
    exact List.not_mem_nil _
  obtain ⟨hc1, hc2⟩ := runChunks_calls d chunks "" 0 0 h0
  rw [empty_append_str] at hc1 hc2
  rcases hR : runChunks (totalize d) chunks "" 0 0 with ⟨fs, cs, res⟩
  rw [hR] at hc1 hc2
  simp only at hc1 hc2
  subst hc1
  subst hc2
  obtain ⟨hd1, hd2⟩ := drainBuffer_calls d
    (((splitLines (concatStr chunks)).getLast?).getD "")
    (claimLineCalls d (splitLines (concatStr chunks)).dropLast 0 0).2.1
    (claimLineCalls d (splitLines (concatStr chunks)).dropLast 0 0).2.2
  rcases hD : drainBuffer (totalize d)
    (((splitLines (concatStr chunks)).getLast?).getD "")
    (claimLineCalls d (splitLines (concatStr chunks)).dropLast 0 0).2.1
    (claimLineCalls d (splitLines (concatStr chunks)).dropLast 0 0).2.2 with ⟨fs2, cs2, ab⟩
  rw [hD] at hd1 hd2
  simp only at hd1 hd2
  subst hd1
  subst hd2
  have e : processStreamBody (totalize d) msgId chunks none =
      ⟨Frame.messageStart msgId :: (fs ++ fs2 ++ [Frame.messageStop]),
        (claimLineCalls d (splitLines (concatStr chunks)).dropLast 0 0).1 ++
          (if specCandidate (((splitLines (concatStr chunks)).getLast?).getD "") ≠ "" ∧
              specCandidate (((splitLines (concatStr chunks)).getLast?).getD "") ≠ "[DONE]" then
            [(specCandidate (((splitLines (concatStr chunks)).getLast?).getD ""),
              (claimLineCalls d (splitLines (concatStr chunks)).dropLast 0 0).2.1,
              (claimLineCalls d (splitLines (concatStr chunks)).dropLast 0 0).2.2)]
          else []),
        none⟩ := by
    unfold processStreamBody
    rw [hR]
    dsimp only
    rw [hD]
  rw [e]
  simp only [claimFramingCalls]
  by_cases hA : specCandidate (((splitLines (concatStr chunks)).getLast?).getD "") = "" <;>
    by_cases hB :
      specCandidate (((splitLines (concatStr chunks)).getLast?).getD "") = "[DONE]" <;>
    simp [hA, hB]

/-! ### Decimal index keys never collide with the cleaner's special keys -/

/-- `Nat.digitChar` of a digit is a digit character. -/
theorem digitChar_isDigit (m : Nat) (h : m < 10) : (Nat.digitChar m).isDigit = true := by
  interval_cases m <;> decide

/-- Every character `toDigitsCore` produces in base 10 is a digit. -/
theorem toDigitsCore_digits (fuel : Nat) :
    ∀ (n : Nat) (ds : List Char), (∀ c ∈ ds, c.isDigit = true) →
      ∀ c ∈ Nat.toDigitsCore 10 fuel n ds, c.isDigit = true := by
  induction fuel with
  | zero => intro n ds h c hc; exact h c hc
  | succ fuel ih =>
    intro n ds h c hc
    simp only [Nat.toDigitsCore] at hc
    split at hc
    · rcases List.mem_cons.mp hc with h1 | h2
      · subst h1; exact digitChar_isDigit _ (Nat.mod_lt _ (by omega))
      · exact h c h2
    · refine ih (n / 10) _ ?_ c hc
      intro c' hc'
      rcases List.mem_cons.mp hc' with h1 | h2
      · subst h1; exact digitChar_isDigit _ (Nat.mod_lt _ (by omega))
      · exact h c' h2

/-- Every character of `Nat.repr n` is a digit. -/
theorem natRepr_digits (n : Nat) : ∀ c ∈ (Nat.repr n).data, c.isDigit = true := by
  intro c hc
  have hdata : (Nat.repr n).data = Nat.toDigitsCore 10 (n + 1) n [] := rfl
  rw [hdata] at hc
  exact toDigitsCore_digits (n + 1) n [] (by simp) c hc

/-- A string containing a non-digit character is never a decimal index key. -/
theorem natRepr_ne_of_nondigit (n : Nat) (s : String) (c : Char)
    (hc : c ∈ s.data) (hnd : c.isDigit = false) : Nat.repr n ≠ s := by
  intro h
  have := natRepr_digits n c (by rw [h]; exact hc)
  rw [hnd] at this
  exact Bool.false_ne_true this

theorem natRepr_ne_enum (n : Nat) : Nat.repr n ≠ "enum" :=
  natRepr_ne_of_nondigit n _ 'e' (by decide) (by decide)

theorem natRepr_ne_format (n : Nat) : Nat.repr n ≠ "format" :=
  natRepr_ne_of_nondigit n _ 'f' (by decide) (by decide)

theorem natRepr_ne_properties (n : Nat) : Nat.repr n ≠ "properties" :=
  natRepr_ne_of_nondigit n _ 'p' (by decide) (by decide)

theorem natRepr_ne_items (n : Nat) : Nat.repr n ≠ "items" :=
  natRepr_ne_of_nondigit n _ 'i' (by decide) (by decide)

theorem natRepr_ne_type (n : Nat) : Nat.repr n ≠ "type" :=
  natRepr_ne_of_nondigit n _ 't' (by decide) (by decide)

/-- Decimal index keys are not among the unconditionally dropped keys. -/
theorem dropKeys_not_contains_repr (i : Nat) : dropKeys.contains (Nat.repr i) = false := by
  have h1 := natRepr_ne_of_nondigit i "$schema" '$' (by decide) (by decide)
  have h2 := natRepr_ne_of_nondigit i "title" 't' (by decide) (by decide)
  have h3 := natRepr_ne_of_nondigit i "examples" 'x' (by decide) (by decide)
  have h4 := natRepr_ne_of_nondigit i "additionalProperties" 'a' (by decide) (by decide)
  simp [dropKeys, List.contains, h1, h2, h3, h4]

/-! ### Shape and lookup lemmas for the schema cleaner -/

/-- The cleaner never returns an array (a spread array becomes an object). -/
theorem clean_not_arr (v : Json) : (cleanJsonSchema v).isJsArray = false := by
  cases v <;> rfl

/-- The cleaner preserves `typeof x === 'object'`. -/
theorem clean_typeof (v : Json) : (cleanJsonSchema v).typeofIsObject = v.typeofIsObject := by
  cases v <;> rfl

/-- The cleaner fixes strings, so it cannot manufacture `"string"`. -/
theorem clean_eq_jstr (v : Json) (s : String) :
    cleanJsonSchema v = Json.jstr s ↔ v = Json.jstr s := by
  cases v <;> simp [cleanJsonSchema]

/-- Every binding produced by `procEntry ts k v cv` has key `k`. -/
theorem procEntry_keys (ts : Bool) (k : String) (v cv : Json) :
    ∀ p ∈ procEntry ts k v cv, p.1 = k := by
  intro p hp
  unfold procEntry at hp
  split_ifs at hp <;> simp at hp <;> simp [hp]

/-- A key absent from every binding is not found. -/
theorem lookupKey_eq_none_of (L : List (String × Json)) (key : String)
    (h : ∀ p ∈ L, p.1 ≠ key) : Json.lookupKey L key = none := by
  induction L with
  | nil => rfl
  | cons p rest ih =>
    obtain ⟨k, v⟩ := p
    simp only [Json.lookupKey]
    rw [if_neg (h (k, v) (List.mem_cons_self _ _))]
    exact ih (fun q hq => h q (List.mem_cons_of_mem _ hq))

/-- `Option.or` with a `some` on the left. -/
theorem optionOr_some {α : Type} (a : α) (y : Option α) : (some a).or y = some a := rfl

/-- `Option.or` with a `none` on the left. -/
theorem optionOr_none {α : Type} (y : Option α) : (Option.none : Option α).or y = y := rfl

/-- Lookup distributes over append, left side first. -/
theorem lookupKey_append (A B : List (String × Json)) (key : String) :
    Json.lookupKey (A ++ B) key =
      (Json.lookupKey A key).or (Json.lookupKey B key) := by
  induction A with
  | nil => simp [Json.lookupKey, optionOr_none]
  | cons p rest ih =>
    obtain ⟨k, v⟩ := p
    by_cases hk : k = key
    · simp [Json.lookupKey, hk, optionOr_some]
    · simp only [List.cons_append, Json.lookupKey, if_neg hk]
      exact ih

/-- How `cleanEntries` transforms the `type` binding: kept, with its value
cleaned exactly when it is a non-array object. -/
theorem lookup_type_cleanEntries (ts : Bool) (kvs : List (String × Json)) :
    Json.lookupKey (cleanEntries ts kvs) "type" =
      (Json.lookupKey kvs "type").map
        (fun v => if v.typeofIsObject && !v.isJsArray then cleanJsonSchema v else v) := by
  induction kvs with
  | nil => rfl
  | cons kv rest ih =>
    obtain ⟨k, v⟩ := kv
    have e : cleanEntries ts ((k, v) :: rest) =
        procEntry ts k v (cleanJsonSchema v) ++ cleanEntries ts rest := rfl
    rw [e, lookupKey_append]
    by_cases hk : k = "type"
    · subst hk
      have he : procEntry ts "type" v (cleanJsonSchema v) =
          if v.typeofIsObject && !v.isJsArray then
            [("type", cleanJsonSchema v)]
          else [("type", v)] := rfl
      by_cases hv : (v.typeofIsObject && !v.isJsArray) = true
      · have he2 : procEntry ts "type" v (cleanJsonSchema v) =
            [("type", cleanJsonSchema v)] := by rw [he, if_pos hv]
        have h2 : v.typeofIsObject = true ∧ v.isJsArray = false := by simpa using hv
        rw [he2]
        simp [Json.lookupKey, h2.1, h2.2, optionOr_some]
      · have he2 : procEntry ts "type" v (cleanJsonSchema v) = [("type", v)] := by
          rw [he, if_neg hv]
        rw [he2]
        rw [show Json.lookupKey [("type", v)] "type" = some v from rfl]
        rw [show Json.lookupKey (("type", v) :: rest) "type" = some v from rfl]
        rw [optionOr_some]
        rw [show Option.map
          (fun v => if (v.typeofIsObject && !v.isJsArray) = true then cleanJsonSchema v else v)
          (some v) = some (if (v.typeofIsObject && !v.isJsArray) = true then
            cleanJsonSchema v else v) from rfl]
        rw [if_neg hv]
    · have hnone : Json.lookupKey (procEntry ts k v (cleanJsonSchema v)) "type" = none :=
        lookupKey_eq_none_of _ _
          (fun p hp => by rw [procEntry_keys ts k v _ p hp]; exact hk)
      rw [hnone, ih]
      simp [Json.lookupKey, hk]

/-- The `type === "string"` test is stable under cleaning. -/
theorem typeIsString_cleanEntries (ts : Bool) (kvs : List (String × Json)) :
    typeIsString (cleanEntries ts kvs) = typeIsString kvs := by
  unfold typeIsString
  rw [lookup_type_cleanEntries]
  cases h : Json.lookupKey kvs "type" with
  | none => rfl
  | some v =>
    by_cases hv : (v.typeofIsObject && !v.isJsArray) = true
    · simp only [Option.map_some', if_pos hv]
      cases v <;> simp_all [cleanJsonSchema, Json.typeofIsObject, Json.isJsArray]
    · simp only [Option.map_some', if_neg hv]

/-- With `type === "string"` in force, no `format` binding survives. -/
theorem lookup_format_cleanEntries (kvs : List (String × Json)) :
    Json.lookupKey (cleanEntries true kvs) "format" = none := by
  induction kvs with
  | nil => rfl
  | cons kv rest ih =>
    obtain ⟨k, v⟩ := kv
    have e : cleanEntries true ((k, v) :: rest) =
        procEntry true k v (cleanJsonSchema v) ++ cleanEntries true rest := rfl
    rw [e, lookupKey_append]
    by_cases hk : k = "format"
    · subst hk
      have he : procEntry true "format" v (cleanJsonSchema v) = [] := rfl
      rw [he]
      simpa [Json.lookupKey] using ih
    · have hnone : Json.lookupKey (procEntry true k v (cleanJsonSchema v)) "format" = none :=
        lookupKey_eq_none_of _ _
          (fun p hp => by rw [procEntry_keys true k v _ p hp]; exact hk)
      rw [hnone]
      simpa using ih

/-- `cleanEntries` distributes over append. -/
theorem cleanEntries_append (ts : Bool) (A B : List (String × Json)) :
    cleanEntries ts (A ++ B) = cleanEntries ts A ++ cleanEntries ts B := by
  induction A with
  | nil => rfl
  | cons p rest ih =>
    obtain ⟨k, v⟩ := p
    simp [List.cons_append, cleanEntries, ih, List.append_assoc]

/-- A singleton entry list cleans to its processed entry. -/
theorem cleanEntries_singleton (ts : Bool) (k : String) (v : Json) :
    cleanEntries ts [(k, v)] = procEntry ts k v (cleanJsonSchema v) := by
  simp [cleanEntries]

/-- Lookup in an index-keyed entry list never finds a lettered key. -/
theorem lookupKey_idxEntries (key : String) (hk : ∀ n : Nat, Nat.repr n ≠ key) :
    ∀ (i : Nat) (vs : List Json), Json.lookupKey (idxEntries i vs) key = none := by
  intro i vs
  induction vs generalizing i with
  | nil => rfl
  | cons v rest ih =>
    simp only [idxEntries, Json.lookupKey]
    rw [if_neg (hk i)]
    exact ih (i + 1)

/-- A spread array carries no `type` binding. -/
theorem typeIsString_idxEntries (i : Nat) (vs : List Json) :
    typeIsString (idxEntries i vs) = false := by
  unfold typeIsString
  rw [lookupKey_idxEntries "type" natRepr_ne_type i vs]

/-- On a key distinct from all special keys, `procEntry` is the plain
nested-object branch. -/
theorem procEntry_default (ts : Bool) (k : String) (v cv : Json)
    (h1 : dropKeys.contains k = false) (h2 : k ≠ "enum") (h3 : k ≠ "format")
    (h4 : k ≠ "properties") (h5 : k ≠ "items") :
    procEntry ts k v cv =
      if v.typeofIsObject && !v.isJsArray then [(k, cv)] else [(k, v)] := by
  unfold procEntry
  rw [if_neg (by simpa using h1), if_neg (by simp [h2]), if_neg (by simp [h3]),
    if_neg (by simp [h4, h5])]

/-- A processed entry is a fixed point of the key loop, given idempotence
on the value. -/
theorem procEntry_idem (ts : Bool) (k : String) (v : Json)
    (IHv : cleanJsonSchema (cleanJsonSchema v) = cleanJsonSchema v) :
    cleanEntries ts (procEntry ts k v (cleanJsonSchema v)) =
      procEntry ts k v (cleanJsonSchema v) := by
  unfold procEntry
  split_ifs with h1 h2 h3 h4 h5
  · rfl
  · -- the kept enum-array entry is untouched again
    rw [cleanEntries_singleton]
    unfold procEntry
    rw [if_neg h1, if_pos h2]
  · rfl
  · -- properties/items: the cleaned value is cleaned to itself
    have hor : k = "properties" ∨ k = "items" := by
      have := h4
      simp only [Bool.and_eq_true, Bool.or_eq_true, decide_eq_true_eq] at this
      exact this.1
    have hto : v.typeofIsObject = true := by
      have := h4
      simp only [Bool.and_eq_true, Bool.or_eq_true, decide_eq_true_eq] at this
      exact this.2
    have hkenum : k ≠ "enum" := by rcases hor with h | h <;> subst h <;> decide
    have hkformat : k ≠ "format" := by rcases hor with h | h <;> subst h <;> decide
    rw [cleanEntries_singleton, IHv]
    unfold procEntry
    rw [if_neg h1]
    rw [if_neg (by simp [hkenum])]
    rw [if_neg (by simp [hkformat])]
    rw [if_pos (by
      simp only [Bool.and_eq_true, Bool.or_eq_true, decide_eq_true_eq]
      exact ⟨hor, by rw [clean_typeof]; exact hto⟩)]
  · -- plain nested object: the cleaned value is cleaned to itself
    have hto : v.typeofIsObject = true := by
      have := h5
      simp only [Bool.and_eq_true, Bool.not_eq_true'] at this
      exact this.1
    rw [cleanEntries_singleton, IHv]
    unfold procEntry
    rw [if_neg h1]
    rw [if_neg (by simp [clean_not_arr])]
    rw [if_neg h3]
    rw [if_neg (by
      intro hc
      apply h4
      simp only [Bool.and_eq_true, Bool.or_eq_true, decide_eq_true_eq] at hc ⊢
      rw [clean_typeof] at hc
      exact hc)]
    rw [if_pos (by simp [clean_typeof, clean_not_arr, hto])]
  · -- kept scalar or array entry: the loop keeps it again
    rw [cleanEntries_singleton]
    unfold procEntry
    rw [if_neg h1, if_neg h2, if_neg h3, if_neg h4, if_neg h5]

/-- The key loop is idempotent on an entry list, given idempotence on all
member values. -/
theorem cleanEntries_idem (ts : Bool) (kvs : List (String × Json))
    (IH : ∀ k v, (k, v) ∈ kvs →
      cleanJsonSchema (cleanJsonSchema v) = cleanJsonSchema v) :
    cleanEntries ts (cleanEntries ts kvs) = cleanEntries ts kvs := by
  induction kvs with
  | nil => rfl
  | cons kv rest ih =>
    obtain ⟨k, v⟩ := kv
    have e : cleanEntries ts ((k, v) :: rest) =
        procEntry ts k v (cleanJsonSchema v) ++ cleanEntries ts rest := rfl
    rw [e, cleanEntries_append,
      procEntry_idem ts k v (IH k v (List.mem_cons_self _ _)),
      ih (fun k' v' hm => IH k' v' (List.mem_cons_of_mem _ hm))]

/-- The key loop fixes a spread array's index-keyed entries, given
idempotence on all elements. -/
theorem cleanEntries_idx_idem (vs : List Json)
    (IH : ∀ v ∈ vs, cleanJsonSchema (cleanJsonSchema v) = cleanJsonSchema v) :
    ∀ i : Nat, cleanEntries false (idxEntries i (cleanElems vs)) =
      idxEntries i (cleanElems vs) := by
  induction vs with
  | nil => intro i; rfl
  | cons v rest ih =>
    intro i
    have hIHv := IH v (List.mem_cons_self _ _)
    have ihr := ih (fun v' hm => IH v' (List.mem_cons_of_mem _ hm)) (i + 1)
    by_cases hv : (v.typeofIsObject && !v.isJsArray) = true
    · have e : idxEntries i (cleanElems (v :: rest)) =
          (Nat.repr i, cleanJsonSchema v) :: idxEntries (i + 1) (cleanElems rest) := by
        simp only [cleanElems, idxEntries, if_pos hv]
      rw [e]
      have e2 : cleanEntries false ((Nat.repr i, cleanJsonSchema v) ::
          idxEntries (i + 1) (cleanElems rest)) =
          procEntry false (Nat.repr i) (cleanJsonSchema v)
            (cleanJsonSchema (cleanJsonSchema v)) ++
            cleanEntries false (idxEntries (i + 1) (cleanElems rest)) := rfl
      rw [e2, ihr, hIHv]
      rw [procEntry_default false (Nat.repr i) _ _ (dropKeys_not_contains_repr i)
        (natRepr_ne_enum i) (natRepr_ne_format i) (natRepr_ne_properties i)
        (natRepr_ne_items i)]
      have hto : v.typeofIsObject = true := by
        have h6 := hv
        simp only [Bool.and_eq_true] at h6
        exact h6.1
      rw [if_pos (by simp [clean_typeof, clean_not_arr, hto])]
      rfl
    · have e : idxEntries i (cleanElems (v :: rest)) =
          (Nat.repr i, v) :: idxEntries (i + 1) (cleanElems rest) := by
        simp only [cleanElems, idxEntries, if_neg hv]
      rw [e]
      have e2 : cleanEntries false ((Nat.repr i, v) ::
          idxEntries (i + 1) (cleanElems rest)) =
          procEntry false (Nat.repr i) v (cleanJsonSchema v) ++
            cleanEntries false (idxEntries (i + 1) (cleanElems rest)) := rfl
      rw [e2, ihr]
      rw [procEntry_default false (Nat.repr i) _ _ (dropKeys_not_contains_repr i)
        (natRepr_ne_enum i) (natRepr_ne_format i) (natRepr_ne_properties i)
        (natRepr_ne_items i)]
      rw [if_neg hv]
      rfl

/-- Claim C7's core: `cleanJsonSchema` is idempotent (strong induction on
the value's size). -/
theorem clean_idem_aux : ∀ (N : Nat) (j : Json), sizeOf j ≤ N →
    cleanJsonSchema (cleanJsonSchema j) = cleanJsonSchema j := by
  intro N
  induction N with
  | zero =>
    intro j h
    exfalso
    cases j <;> simp_all <;> omega
  | succ N ih =>
    intro j hj
    cases j with
    | jobj kvs =>
      have IH : ∀ k v, (k, v) ∈ kvs →
          cleanJsonSchema (cleanJsonSchema v) = cleanJsonSchema v := by
        intro k v hm
        apply ih
        have h2 := List.sizeOf_lt_of_mem hm
        have h3 : sizeOf (Json.jobj kvs) = 1 + sizeOf kvs := by simp
        have h4 : sizeOf (k, v) = 1 + sizeOf k + sizeOf v := by simp
        omega
      show cleanJsonSchema (Json.jobj (cleanEntries (typeIsString kvs) kvs)) = _
      simp only [cleanJsonSchema]
      rw [typeIsString_cleanEntries]
      rw [cleanEntries_idem _ _ IH]
    | jarr xs =>
      have IH : ∀ v ∈ xs, cleanJsonSchema (cleanJsonSchema v) = cleanJsonSchema v := by
        intro v hm
        apply ih
        have h2 := List.sizeOf_lt_of_mem hm
        have h3 : sizeOf (Json.jarr xs) = 1 + sizeOf xs := by simp
        omega
      show cleanJsonSchema (Json.jobj (idxEntries 0 (cleanElems xs))) = _
      simp only [cleanJsonSchema]
      rw [typeIsString_idxEntries]
      rw [cleanEntries_idx_idem _ IH]
    | jnull => rfl
    | jbool b => rfl
    | jnum n => rfl
    | jstr s => rfl

/-- Claim C7: `cleanJsonSchema` is idempotent — cleaning an already
cleaned value changes nothing. -/
theorem claim_C7_clean_idempotent (j : Json) :
    cleanJsonSchema (cleanJsonSchema j) = cleanJsonSchema j :=
  clean_idem_aux (sizeOf j) j (Nat.le_refl _)

/-- `entriesOK` distributes over append. -/
theorem entriesOK_append (A B : List (String × Json)) :
    entriesOK (A ++ B) = (entriesOK A && entriesOK B) := by
  induction A with
  | nil => simp [entriesOK]
  | cons p rest ih =>
    obtain ⟨k, v⟩ := p
    simp [entriesOK, ih, Bool.and_assoc]

/-- A processed entry passes the cleanliness check, given it on the
cleaned value. -/
theorem entriesOK_procEntry (ts : Bool) (k : String) (v : Json)
    (IHv : cleanedOK (cleanJsonSchema v) = true) :
    entriesOK (procEntry ts k v (cleanJsonSchema v)) = true := by
  unfold procEntry
  split_ifs with h1 h2 h3 h4 h5
  · rfl
  · -- kept enum array: arrays are opaque to the check
    have harr : v.isJsArray = true := by
      have h6 := h2
      simp only [Bool.and_eq_true] at h6
      exact h6.2
    cases v <;> simp_all [entriesOK, Json.isJsArray]
  · rfl
  · -- properties/items: the value is a clean output
    cases hcv : cleanJsonSchema v <;> simp_all [entriesOK]
  · -- nested object: the value is a clean output
    cases hcv : cleanJsonSchema v <;> simp_all [entriesOK]
  · -- kept scalar or array (a non-array object cannot reach this branch)
    cases v <;> simp_all [entriesOK, Json.typeofIsObject, Json.isJsArray]

/-- The key loop's output passes the per-entry cleanliness check. -/
theorem entriesOK_cleanEntries (ts : Bool) (kvs : List (String × Json))
    (IH : ∀ k v, (k, v) ∈ kvs → cleanedOK (cleanJsonSchema v) = true) :
    entriesOK (cleanEntries ts kvs) = true := by
  induction kvs with
  | nil => rfl
  | cons kv rest ih =>
    obtain ⟨k, v⟩ := kv
    have e : cleanEntries ts ((k, v) :: rest) =
        procEntry ts k v (cleanJsonSchema v) ++ cleanEntries ts rest := rfl
    rw [e, entriesOK_append,
      entriesOK_procEntry ts k v (IH k v (List.mem_cons_self _ _)),
      ih (fun k' v' hm => IH k' v' (List.mem_cons_of_mem _ hm))]
    rfl

/-- A spread array's processed entries pass the cleanliness check. -/
theorem entriesOK_idxEntries (vs : List Json)
    (IH : ∀ v ∈ vs, cleanedOK (cleanJsonSchema v) = true) :
    ∀ i : Nat, entriesOK (idxEntries i (cleanElems vs)) = true := by
  induction vs with
  | nil => intro i; rfl
  | cons v rest ih =>
    intro i
    have hIHv := IH v (List.mem_cons_self _ _)
    have ihr := ih (fun v' hm => IH v' (List.mem_cons_of_mem _ hm)) (i + 1)
    have hkey : dropKeys.contains (Nat.repr i) = false := dropKeys_not_contains_repr i
    by_cases hv : (v.typeofIsObject && !v.isJsArray) = true
    · have e : idxEntries i (cleanElems (v :: rest)) =
          (Nat.repr i, cleanJsonSchema v) :: idxEntries (i + 1) (cleanElems rest) := by
        simp only [cleanElems, idxEntries, if_pos hv]
      rw [e]
      cases hcv : cleanJsonSchema v <;> simp_all [entriesOK]
    · have e : idxEntries i (cleanElems (v :: rest)) =
          (Nat.repr i, v) :: idxEntries (i + 1) (cleanElems rest) := by
        simp only [cleanElems, idxEntries, if_neg hv]
      rw [e]
      cases v <;> simp_all [entriesOK, Json.typeofIsObject, Json.isJsArray]

/-- Claim C6's core invariant: every output of `cleanJsonSchema` passes
the recursive cleanliness check (strong induction on size). -/
theorem cleanedOK_clean_aux : ∀ (N : Nat) (j : Json), sizeOf j ≤ N →
    cleanedOK (cleanJsonSchema j) = true := by
  intro N
  induction N with
  | zero =>
    intro j h
    exfalso
    cases j <;> simp_all <;> omega
  | succ N ih =>
    intro j hj
    cases j with
    | jobj kvs =>
      have IH : ∀ k v, (k, v) ∈ kvs → cleanedOK (cleanJsonSchema v) = true := by
        intro k v hm
        apply ih
        have h2 := List.sizeOf_lt_of_mem hm
        have h3 : sizeOf (Json.jobj kvs) = 1 + sizeOf kvs := by simp
        have h4 : sizeOf (k, v) = 1 + sizeOf k + sizeOf v := by simp
        omega
      show cleanedOK (Json.jobj (cleanEntries (typeIsString kvs) kvs)) = true
      simp only [cleanedOK]
      rw [typeIsString_cleanEntries, entriesOK_cleanEntries _ _ IH]
      by_cases hts : typeIsString kvs = true
      · rw [hts, lookup_format_cleanEntries]
        rfl
      · have hts2 : typeIsString kvs = false := by
          cases h : typeIsString kvs
          · rfl
          · exact absurd h hts
        rw [hts2]
        rfl
    | jarr xs =>
      have IH : ∀ v ∈ xs, cleanedOK (cleanJsonSchema v) = true := by
        intro v hm
        apply ih
        have h2 := List.sizeOf_lt_of_mem hm
        have h3 : sizeOf (Json.jarr xs) = 1 + sizeOf xs := by simp
        omega
      show cleanedOK (Json.jobj (idxEntries 0 (cleanElems xs))) = true
      simp only [cleanedOK]
      rw [typeIsString_idxEntries, entriesOK_idxEntries _ IH]
      rfl
    | jnull => rfl
    | jbool b => rfl
    | jnum n => rfl
    | jstr s => rfl

/-- Claim C6, counterexample: a property NAMED `title` under `properties`
is deleted (the recursion applies the same key removal to the properties
map itself), and an array under `items` is spread into an index-keyed
object rather than passed through — both contradicting the claim as
stated. -/
theorem claim_C6_counterexample :
    cleanJsonSchema (Json.jobj [("properties",
        Json.jobj [("title", Json.jobj [("type", Json.jstr "string")])])]) =
      Json.jobj [("properties", Json.jobj [])] ∧
    cleanJsonSchema (Json.jobj [("items", Json.jarr [Json.jnum 1])]) =
      Json.jobj [("items", Json.jobj [("0", Json.jnum 1)])] :=
  ⟨rfl, rfl⟩

/-- Claim C6, amended: cleaning removes `$schema` / `title` / `examples` /
`additionalProperties` everywhere an object is reached through
object-valued entries — including the `properties` map itself, so
properties NAMED like those fields are deleted — and removes `format`
wherever the sibling `type` is the string `"string"` (the `cleanedOK`
checker); non-object scalars pass through unchanged, an array under an
ordinary key passes through unchanged, and arrays under `properties` /
`items` are spread into index-keyed objects whose object elements are
cleaned. -/
theorem claim_C6_amended (j : Json) (b : Bool) (n : Int) (s : String)
    (xs : List Json) :
    cleanedOK (cleanJsonSchema j) = true ∧
    cleanJsonSchema (Json.jbool b) = Json.jbool b ∧
    cleanJsonSchema (Json.jnum n) = Json.jnum n ∧
    cleanJsonSchema (Json.jstr s) = Json.jstr s ∧
    cleanJsonSchema Json.jnull = Json.jnull ∧
    cleanJsonSchema (Json.jobj [("data", Json.jarr xs)]) =
      Json.jobj [("data", Json.jarr xs)] ∧
    cleanJsonSchema (Json.jobj [("items", Json.jarr xs)]) =
      Json.jobj [("items", cleanJsonSchema (Json.jarr xs))] :=
  ⟨cleanedOK_clean_aux (sizeOf j) j (Nat.le_refl _), rfl, rfl, rfl, rfl, rfl, rfl⟩

end ClaudeProxy
